import Mathlib

/-!
Verification of the table-scan execution subsystem and segment statistics
objects of a column-oriented database engine (the opossum/hyrise core).

Scalar element kind is modelled as `Int` (the 32-bit integer instantiation);
nullable cells and variant literals are `Option Int` with `none` as NULL.
Value-ids are `Nat` restricted below `2^32`, with the null sentinel
`INVALID_VALUE_ID = 2^32 - 1` and explicit modular arithmetic where the
source computes in unsigned 32-bit space.
-/

namespace Opossum

/-- Predicate conditions of the engine (types.hpp): the six binary
comparisons, BETWEEN, the null tests, and the conditions recognized only as
unsupported. -/
inductive PredicateCondition
  | equals
  | notEquals
  | lessThan
  | lessThanEquals
  | greaterThan
  | greaterThanEquals
  | between
  | isNull
  | isNotNull
  | likeCond
  | notLikeCond
  | inCond
  | notInCond
deriving DecidableEq, Repr

/-- Three-state cardinality estimate tag. -/
inductive EstimateType
  | matchesNone
  | matchesApproximately
  | matchesAll
deriving DecidableEq, Repr

/-- Order modes a chunk can be tagged with; `ascending`/`descending` place
nulls first, the NullsLast variants place them last
(table_scan_sorted_test.cpp lines 21-22). -/
inductive OrderByMode
  | ascending
  | ascendingNullsLast
  | descending
  | descendingNullsLast
deriving DecidableEq, Repr

/-- Modulus of unsigned 32-bit value-id arithmetic. -/
def VID_MOD : Nat := 2 ^ 32

/-- The reserved null sentinel value-id (types.hpp: maximum uint32). -/
def INVALID_VALUE_ID : Nat := 2 ^ 32 - 1

/-- Unsigned 32-bit subtraction `x - y` for `x y < 2^32`. -/
def sub32 (x y : Nat) : Nat := (x + VID_MOD - y) % VID_MOD

/-- Indices (starting at `i`) of the list entries satisfying `p`; the shape
shared by every scan loop: a scan appends the offset of each matching row. -/
def idxWhere {α : Type} (p : α → Bool) : List α → Nat → List Nat
  | [], _ => []
  | x :: xs, i => if p x then i :: idxWhere p xs (i + 1) else idxWhere p xs (i + 1)

theorem idxWhere_congr {α : Type} {p q : α → Bool} :
    ∀ (l : List α) (i : Nat), (∀ a ∈ l, p a = q a) → idxWhere p l i = idxWhere q l i := by
  intro l
  induction l with
  | nil => intro i _; rfl
  | cons x xs ih =>
    intro i h
    simp only [idxWhere, h x (List.mem_cons_self x xs)]
    by_cases hq : q x = true
    · simp [hq, ih (i + 1) fun a ha => h a (List.mem_cons_of_mem x ha)]
    · simp [hq, ih (i + 1) fun a ha => h a (List.mem_cons_of_mem x ha)]

theorem idxWhere_false {α : Type} {p : α → Bool} :
    ∀ (l : List α) (i : Nat), (∀ a ∈ l, p a = false) → idxWhere p l i = [] := by
  intro l
  induction l with
  | nil => intro i _; rfl
  | cons x xs ih =>
    intro i h
    simp only [idxWhere, h x (List.mem_cons_self x xs)]
    simpa using ih (i + 1) fun a ha => h a (List.mem_cons_of_mem x ha)

theorem idxWhere_append {α : Type} (p : α → Bool) :
    ∀ (l m : List α) (i : Nat),
      idxWhere p (l ++ m) i = idxWhere p l i ++ idxWhere p m (i + l.length) := by
  intro l
  induction l with
  | nil => intro m i; simp [idxWhere]
  | cons x xs ih =>
    intro m i
    have hidx : i + 1 + xs.length = i + (xs.length + 1) := by omega
    simp only [List.cons_append, idxWhere, List.length_cons]
    by_cases hp : p x = true
    · simp [hp, ih m (i + 1), hidx]
    · simp [hp, ih m (i + 1), hidx]

theorem idxWhere_map {α β : Type} (p : β → Bool) (f : α → β) :
    ∀ (l : List α) (i : Nat), idxWhere p (l.map f) i = idxWhere (fun a => p (f a)) l i := by
  intro l
  induction l with
  | nil => intro i; rfl
  | cons x xs ih => intro i; simp only [List.map_cons, idxWhere, ih]

theorem idxWhere_mem {α : Type} (p : α → Bool) (d : α) :
    ∀ (l : List α) (i : Nat), ∀ j ∈ idxWhere p l i,
      i ≤ j ∧ j - i < l.length ∧ p (l.getD (j - i) d) = true := by
  intro l
  induction l with
  | nil => intro i j hj; simp [idxWhere] at hj
  | cons x xs ih =>
    intro i j hj
    simp only [idxWhere] at hj
    by_cases hp : p x = true
    · simp only [hp, if_true, List.mem_cons] at hj
      rcases hj with rfl | hj
      · simp [hp]
      · obtain ⟨h1, h2, h3⟩ := ih (i + 1) j hj
        refine ⟨by omega, by simp [List.length_cons]; omega, ?_⟩
        have : j - i = (j - (i + 1)) + 1 := by omega
        simpa [this] using h3
    · simp only [hp, if_false] at hj
      obtain ⟨h1, h2, h3⟩ := ih (i + 1) j hj
      refine ⟨by omega, by simp [List.length_cons]; omega, ?_⟩
      have : j - i = (j - (i + 1)) + 1 := by omega
      simpa [this] using h3

theorem countP_downward (P : Int → Bool) :
    ∀ (l : List Int),
      (∀ i j (hi : i < l.length) (hj : j < l.length),
        i ≤ j → P (l.get ⟨j, hj⟩) = true → P (l.get ⟨i, hi⟩) = true) →
      ∀ i (hi : i < l.length), P (l.get ⟨i, hi⟩) = decide (i < l.countP P) := by
  intro l
  induction l with
  | nil => intro _ i hi; simp at hi
  | cons x xs ih =>
    intro hmono i hi
    have hmx : ∀ j (hj : j < xs.length),
        P (xs.get ⟨j, hj⟩) = true → P x = true := by
      intro j hj hPj
      have h0 : (0 : Nat) < (x :: xs).length := by simp
      have hj1 : j + 1 < (x :: xs).length := by simp; omega
      exact hmono 0 (j + 1) h0 hj1 (by omega) hPj
    by_cases hx : P x = true
    · have hc : (x :: xs).countP P = xs.countP P + 1 := by
        simp [List.countP_cons, hx]
      match i with
      | 0 => simp [hx, hc]
      | i' + 1 =>
        have hi' : i' < xs.length := by simpa using hi
        have hrec := ih (fun a b ha hb hab hPb =>
          hmono (a + 1) (b + 1) (by simp; omega) (by simp; omega) (by omega) hPb) i' hi'
        calc P ((x :: xs).get ⟨i' + 1, hi⟩) = P (xs.get ⟨i', hi'⟩) := rfl
          _ = decide (i' < xs.countP P) := hrec
          _ = decide (i' + 1 < (x :: xs).countP P) := by
              rw [hc]; simp [Nat.add_lt_add_iff_right]
    · have hall : ∀ a ∈ xs, ¬(P a = true) := by
        intro a ha
        obtain ⟨⟨j, hj⟩, rfl⟩ := List.mem_iff_get.mp ha
        intro hPa
        exact hx (hmx j hj hPa)
      have hc0 : xs.countP P = 0 := List.countP_eq_zero.mpr hall
      have hc : (x :: xs).countP P = 0 := by
        simp [List.countP_cons, hc0, hx]
      match i with
      | 0 => simp [hc]; exact Bool.eq_false_iff.mpr hx
      | i' + 1 =>
        have hi' : i' < xs.length := by simpa using hi
        simp [hc]
        exact Bool.eq_false_iff.mpr (hall _ (List.get_mem xs i' hi'))

/-- Index of the first dictionary entry `≥ v`, i.e. the count of entries
below `v` (dictionary `lower_bound` on a sorted dictionary). -/
def lower_bound (D : List Int) (v : Int) : Nat := D.countP (fun d => decide (d < v))

/-- Index of the first dictionary entry `> v`, i.e. the count of entries
not above `v` (dictionary `upper_bound` on a sorted dictionary). -/
def upper_bound (D : List Int) (v : Int) : Nat := D.countP (fun d => decide (d ≤ v))

theorem lower_bound_le_length (D : List Int) (v : Int) : lower_bound D v ≤ D.length :=
  List.countP_le_length _

theorem upper_bound_le_length (D : List Int) (v : Int) : upper_bound D v ≤ D.length :=
  List.countP_le_length _

theorem sorted_lt_char {D : List Int} (hD : D.Pairwise (· ≤ ·)) (v : Int) :
    ∀ i (hi : i < D.length), decide (D.get ⟨i, hi⟩ < v) = decide (i < lower_bound D v) := by
  intro i hi
  unfold lower_bound
  refine countP_downward (fun d => decide (d < v)) D ?_ i hi
  intro a b ha hb hab hPb
  rcases Nat.lt_or_ge a b with hlt | hge
  · have := List.pairwise_iff_get.mp hD ⟨a, ha⟩ ⟨b, hb⟩ hlt
    have hbv : D.get ⟨b, hb⟩ < v := of_decide_eq_true hPb
    exact decide_eq_true (lt_of_le_of_lt this hbv)
  · have hab' : a = b := by omega
    subst hab'
    exact hPb

theorem sorted_le_char {D : List Int} (hD : D.Pairwise (· ≤ ·)) (v : Int) :
    ∀ i (hi : i < D.length), decide (D.get ⟨i, hi⟩ ≤ v) = decide (i < upper_bound D v) := by
  intro i hi
  unfold upper_bound
  refine countP_downward (fun d => decide (d ≤ v)) D ?_ i hi
  intro a b ha hb hab hPb
  rcases Nat.lt_or_ge a b with hlt | hge
  · have := List.pairwise_iff_get.mp hD ⟨a, ha⟩ ⟨b, hb⟩ hlt
    have hbv : D.get ⟨b, hb⟩ ≤ v := of_decide_eq_true hPb
    exact decide_eq_true (le_trans this hbv)
  · have hab' : a = b := by omega
    subst hab'
    exact hPb

theorem sorted_gt_char {D : List Int} (hD : D.Pairwise (fun a b => b ≤ a)) (v : Int) :
    ∀ i (hi : i < D.length),
      decide (v < D.get ⟨i, hi⟩) = decide (i < D.countP (fun x => decide (v < x))) := by
  intro i hi
  refine countP_downward (fun x => decide (v < x)) D ?_ i hi
  intro a b ha hb hab hPb
  rcases Nat.lt_or_ge a b with hlt | hge
  · have := List.pairwise_iff_get.mp hD ⟨a, ha⟩ ⟨b, hb⟩ hlt
    have hbv : v < D.get ⟨b, hb⟩ := of_decide_eq_true hPb
    exact decide_eq_true (lt_of_lt_of_le hbv this)
  · have hab' : a = b := by omega
    subst hab'
    exact hPb

theorem sorted_ge_char {D : List Int} (hD : D.Pairwise (fun a b => b ≤ a)) (v : Int) :
    ∀ i (hi : i < D.length),
      decide (v ≤ D.get ⟨i, hi⟩) = decide (i < D.countP (fun x => decide (v ≤ x))) := by
  intro i hi
  refine countP_downward (fun x => decide (v ≤ x)) D ?_ i hi
  intro a b ha hb hab hPb
  rcases Nat.lt_or_ge a b with hlt | hge
  · have := List.pairwise_iff_get.mp hD ⟨a, ha⟩ ⟨b, hb⟩ hlt
    have hbv : v ≤ D.get ⟨b, hb⟩ := of_decide_eq_true hPb
    exact decide_eq_true (le_trans hbv this)
  · have hab' : a = b := by omega
    subst hab'
    exact hPb

/-- On a sorted dictionary, an entry equals `v` exactly on the value-id
window `[lower_bound v, upper_bound v)`. -/
theorem sorted_eq_window {D : List Int} (hD : D.Pairwise (· ≤ ·)) (v : Int) :
    ∀ i (hi : i < D.length),
      (D.get ⟨i, hi⟩ = v ↔ lower_bound D v ≤ i ∧ i < upper_bound D v) := by
  intro i hi
  have h1 := decide_eq_decide.mp (sorted_lt_char hD v i hi)
  have h2 := decide_eq_decide.mp (sorted_le_char hD v i hi)
  constructor
  · intro hv
    refine ⟨?_, h2.mp (le_of_eq hv)⟩
    have hnl : ¬ i < lower_bound D v := fun h => lt_irrefl v (hv ▸ h1.mpr h)
    omega
  · rintro ⟨hlb, hub⟩
    have hle : D.get ⟨i, hi⟩ ≤ v := h2.mpr hub
    have hnlt : ¬(D.get ⟨i, hi⟩ < v) := fun h => Nat.not_lt.mpr hlb (h1.mp h)
    omega

/-- On a strictly sorted dictionary, at most one entry equals `v`: the
window is `{lower_bound v}` when nonempty. -/
theorem strict_eq_char {D : List Int} (hD : D.Pairwise (· < ·)) (v : Int) :
    ∀ i (hi : i < D.length),
      (D.get ⟨i, hi⟩ = v ↔ i = lower_bound D v ∧ lower_bound D v < upper_bound D v) := by
  intro i hi
  have hDle : D.Pairwise (· ≤ ·) := hD.imp (fun h => le_of_lt h)
  rw [sorted_eq_window hDle v i hi]
  constructor
  · rintro ⟨hlb, hub⟩
    have hi' : i = lower_bound D v := by
      by_contra hne
      have hlt : lower_bound D v < i := by omega
      have hlbl : lower_bound D v < D.length := by omega
      have hgetlb : D.get ⟨lower_bound D v, hlbl⟩ = v := by
        rw [sorted_eq_window hDle v _ hlbl]
        omega
      have hgeti : D.get ⟨i, hi⟩ = v := by
        rw [sorted_eq_window hDle v i hi]
        omega
      have := List.pairwise_iff_get.mp hD ⟨lower_bound D v, hlbl⟩ ⟨i, hi⟩ hlt
      rw [hgetlb, hgeti] at this
      exact lt_irrefl v this
    exact ⟨hi', by omega⟩
  · rintro ⟨rfl, hub⟩
    omega

/-- Comparator chosen by `with_comparator` for a binary predicate
(type_comparison.hpp); conditions outside the six comparisons never reach a
comparator (`Fail` in the source) and match nothing here. -/
def cmpMatches (c : PredicateCondition) (x v : Int) : Bool :=
  match c with
  | .equals => x == v
  | .notEquals => !(x == v)
  | .lessThan => decide (x < v)
  | .lessThanEquals => decide (x ≤ v)
  | .greaterThan => decide (v < x)
  | .greaterThanEquals => decide (v ≤ x)
  | _ => false

/-- Whether the condition is one of the six binary comparisons. -/
def isComparison (c : PredicateCondition) : Bool :=
  match c with
  | .equals | .notEquals | .lessThan | .lessThanEquals
  | .greaterThan | .greaterThanEquals => true
  | _ => false

/-- A segment: one column of one chunk, either value-encoded (dense cells
with nulls) or dictionary-encoded (sorted dictionary plus attribute vector
of value-ids, `INVALID_VALUE_ID` marking null). -/
inductive Segment
  | valueSeg (rows : List (Option Int))
  | dictSeg (D : List Int) (A : List Nat)
deriving DecidableEq, Repr

/-- Logical cells of a dictionary segment: value-id `INVALID_VALUE_ID` is
null, any other id indexes the dictionary. -/
def dictRows (D : List Int) (A : List Nat) : List (Option Int) :=
  A.map (fun a => if a == INVALID_VALUE_ID then none else some (D.getD a 0))

/-- Logical cells of any segment. -/
def logicalRows : Segment → List (Option Int)
  | .valueSeg rows => rows
  | .dictSeg D A => dictRows D A

/-- Modelled from the spec: the generic scan loop (`_binary_scan` over a
value iterable, whose body lives outside src/) emits the offset of every
non-null cell whose value satisfies the comparator; null slots never match a
comparison predicate (spec 4.4). -/
def value_scan (rows : List (Option Int)) (c : PredicateCondition) (v : Int) : List Nat :=
  idxWhere (fun cell => match cell with
    | none => false
    | some x => cmpMatches c x v) rows 0

/-- Modelled from the spec: the generic BETWEEN scan
(`_scan_generic_segment`, comparator `lo ≤ x && x ≤ hi`, iterated with null
checking). -/
def between_scan_generic (rows : List (Option Int)) (lo hi : Int) : List Nat :=
  idxWhere (fun cell => match cell with
    | none => false
    | some x => decide (lo ≤ x) && decide (x ≤ hi)) rows 0

/-- `_get_search_value_id`: `lower_bound` for `=`, `≠`, `<`, `≥`;
`upper_bound` for `≤`, `>`. -/
def search_value_id (c : PredicateCondition) (D : List Int) (v : Int) : Nat :=
  match c with
  | .equals | .notEquals | .lessThan | .greaterThanEquals => lower_bound D v
  | .lessThanEquals | .greaterThan => upper_bound D v
  | _ => 0

/-- `_right_value_matches_all` (unique_values_count is the dictionary
size). -/
def right_value_matches_all (c : PredicateCondition) (D : List Int) (v : Int) (s : Nat) : Bool :=
  match c with
  | .equals => !(s == upper_bound D v) && (D.length == 1)
  | .notEquals => s == upper_bound D v
  | .lessThan | .lessThanEquals => s == INVALID_VALUE_ID
  | .greaterThanEquals | .greaterThan => s == 0
  | _ => false

/-- `_right_value_matches_none`. -/
def right_value_matches_none (c : PredicateCondition) (D : List Int) (v : Int) (s : Nat) : Bool :=
  match c with
  | .equals => s == upper_bound D v
  | .notEquals => (s == upper_bound D v) && (D.length == 1)
  | .lessThan | .lessThanEquals => s == 0
  | .greaterThan | .greaterThanEquals => s == INVALID_VALUE_ID
  | _ => false

/-- Value-id comparator of `_with_operator_for_dict_column_scan`: `=`/`≠`
compare against the search id, `<`/`≤` use `<` (search id is upper_bound
for `≤`), `>`/`≥` use `≥` (search id is upper_bound for `>`). -/
def dict_comp (c : PredicateCondition) (a s : Nat) : Bool :=
  match c with
  | .equals => a == s
  | .notEquals => !(a == s)
  | .lessThan | .lessThanEquals => decide (a < s)
  | .greaterThan | .greaterThanEquals => decide (s ≤ a)
  | _ => false

/-- `_handle_dictionary_column`: compute the search value-id, take the
matches-all / matches-none early-outs, otherwise run the value-id comparator
over the attribute vector.  The scan loops (`_unary_scan`/`_binary_scan`)
skip null value-ids — modelled from the spec ("honoring the null sentinel"),
as their bodies live outside src/. -/
def dict_scan (D : List Int) (A : List Nat) (c : PredicateCondition) (v : Int) : List Nat :=
  let s := search_value_id c D v
  if right_value_matches_all c D v s then
    idxWhere (fun a => !(a == INVALID_VALUE_ID)) A 0
  else if right_value_matches_none c D v s then
    []
  else
    idxWhere (fun a => !(a == INVALID_VALUE_ID) && dict_comp c a s) A 0

/-- `_scan_dictionary_segment` of the BETWEEN scan: `left_value_id =
lower_bound(lo)`, `right_value_id = upper_bound(hi)` (replaced by `U` when
INVALID), matches-all when the window covers every id, matches-none when
`left ≥ U` or `left = right`, otherwise the unsigned window comparator
`(a - left) < (right - left)` WITHOUT a null check (the source passes
CheckForNull = false there). -/
def between_scan_dict (D : List Int) (A : List Nat) (lo hi : Int) : List Nat :=
  let leftId := lower_bound D lo
  let rightId0 := upper_bound D hi
  let rightId := if rightId0 == INVALID_VALUE_ID then D.length else rightId0
  if leftId == 0 && rightId == D.length then
    idxWhere (fun a => !(a == INVALID_VALUE_ID)) A 0
  else if decide (D.length ≤ leftId) || leftId == rightId then
    []
  else
    let diff := sub32 rightId leftId
    idxWhere (fun a => decide (sub32 a leftId < diff)) A 0

/-- Chunk-level scan entry point.  Comparisons go through
`SingleColumnTableScanImpl::scan_chunk`, whose null-literal early-out
returns an empty position list before dispatching on the encoding; BETWEEN
goes through `ColumnBetweenTableScanImpl` (empty on a null bound, spec 4.8);
IS [NOT] NULL consults the null information directly. -/
def scan_chunk (s : Segment) (c : PredicateCondition) (v : Option Int)
    (v2 : Option (Option Int)) : List Nat :=
  match c with
  | .isNull => idxWhere (fun cell => cell == none) (logicalRows s) 0
  | .isNotNull => idxWhere (fun cell => !(cell == none)) (logicalRows s) 0
  | .between =>
    match v, v2 with
    | some lo, some (some hi) =>
      (match s with
       | .valueSeg rows => between_scan_generic rows lo hi
       | .dictSeg D A => between_scan_dict D A lo hi)
    | _, _ => []
  | c =>
    match v with
    | none => []
    | some x =>
      match s with
      | .valueSeg rows => value_scan rows c x
      | .dictSeg D A =>
        if isComparison c then dict_scan D A c x else value_scan (dictRows D A) c x

/-- C9: for every chunk and every segment encoding, scanning with any
condition other than IsNull/IsNotNull whose literal is null returns an empty
position list (three-valued logic: comparison with null is unknown and
filters every row out). -/
theorem C9_null_literal_scan_empty (s : Segment) (c : PredicateCondition)
    (v2 : Option (Option Int)) (h1 : c ≠ PredicateCondition.isNull)
    (h2 : c ≠ PredicateCondition.isNotNull) :
    scan_chunk s c none v2 = [] := by
  cases c <;> first
    | exact absurd rfl h1
    | exact absurd rfl h2
    | rfl

/-- Witness for C9 at a concrete value segment and dictionary segment. -/
theorem C9_null_literal_scan_empty_witness :
    scan_chunk (Segment.valueSeg [some 1, none, some 3]) PredicateCondition.equals none none
        = [] ∧
      scan_chunk (Segment.dictSeg [10, 20] [0, 1, 4294967295])
        PredicateCondition.between none (some (some 5)) = [] :=
  ⟨C9_null_literal_scan_empty _ _ _ (by decide) (by decide),
   C9_null_literal_scan_empty _ _ _ (by decide) (by decide)⟩

/-- C3: evaluation at the failing input.  On the dictionary segment with
dictionary [10,20,30] and attribute vector [0,1,2,1,INVALID], BETWEEN 25 15
has lower_bound(25) = 2 > upper_bound(15) = 1, the unsigned window
`(a - 2) mod 2^32 < (1 - 2) mod 2^32` wraps, and the dictionary path emits
offsets 0, 2 and 4 — offset 4 being the NULL row — although no value
satisfies 25 ≤ x ≤ 15 and the generic path correctly emits nothing.  This
contradicts the claim (and the source comment asserting NULL value-ids stay
outside the window). -/
theorem C3_between_dict_wrap_eval :
    scan_chunk (Segment.dictSeg [10, 20, 30] [0, 1, 2, 1, 4294967295])
        PredicateCondition.between (some 25) (some (some 15)) = [0, 2, 4] ∧
      scan_chunk (Segment.valueSeg (dictRows [10, 20, 30] [0, 1, 2, 1, 4294967295]))
        PredicateCondition.between (some 25) (some (some 15)) = [] ∧
      dictRows [10, 20, 30] [0, 1, 2, 1, 4294967295]
        = [some 10, some 20, some 30, some 20, none] := by
  refine ⟨?_, ?_, ?_⟩ <;> rfl

theorem getD_get {α : Type} (l : List α) (d : α) (i : Nat) (h : i < l.length) :
    l.getD i d = l.get ⟨i, h⟩ := by
  simp [List.getD_eq_getElem?_getD, List.getElem?_eq_getElem h, List.get_eq_getElem]

theorem lower_le_upper (D : List Int) (v : Int) : lower_bound D v ≤ upper_bound D v :=
  List.countP_mono_left (fun x _ hx => decide_eq_true (le_of_lt (of_decide_eq_true hx)))

theorem value_scan_dict (D : List Int) (A : List Nat) (c : PredicateCondition) (v : Int) :
    value_scan (dictRows D A) c v
      = idxWhere (fun a =>
          if a == INVALID_VALUE_ID then false else cmpMatches c (D.getD a 0) v) A 0 := by
  unfold value_scan dictRows
  rw [idxWhere_map]
  refine idxWhere_congr A 0 ?_
  intro a _
  by_cases h : (a == INVALID_VALUE_ID) = true <;> simp [h]

theorem mem_valid_id {D : List Int} {A : List Nat}
    (hmem : ∀ a ∈ A, a < D.length ∨ a = INVALID_VALUE_ID) {a : Nat} (ha : a ∈ A)
    (hai : (a == INVALID_VALUE_ID) = false) : a < D.length := by
  rcases hmem a ha with h | h
  · exact h
  · exact absurd (show (a == INVALID_VALUE_ID) = true by simpa using h) (by simp [hai])

theorem dict_cell (D : List Int) (a : Nat) (h : a < D.length) :
    D[a]?.getD 0 = D.get ⟨a, h⟩ := by
  rw [List.getElem?_eq_getElem h]
  simp [List.get_eq_getElem]

theorem dict_scan_equals (D : List Int) (A : List Nat)
    (hD : D.Pairwise (· < ·))
    (hmem : ∀ a ∈ A, a < D.length ∨ a = INVALID_VALUE_ID) (v : Int) :
    dict_scan D A PredicateCondition.equals v
      = value_scan (dictRows D A) PredicateCondition.equals v := by
  have hDle : D.Pairwise (· ≤ ·) := hD.imp (fun h => le_of_lt h)
  rw [value_scan_dict]
  simp only [dict_scan, search_value_id, right_value_matches_all, right_value_matches_none,
    dict_comp]
  by_cases hw : lower_bound D v = upper_bound D v
  · have h1 : (lower_bound D v == upper_bound D v) = true := by simpa using hw
    simp only [h1, Bool.not_true, Bool.false_and, if_false, if_true, Bool.false_eq_true]
    symm
    refine idxWhere_false A 0 ?_
    intro a ha
    by_cases hai : (a == INVALID_VALUE_ID) = true
    · simp [hai]
    · have hai' : (a == INVALID_VALUE_ID) = false := by simpa using hai
      have hlen := mem_valid_id hmem ha hai'
      have hx : D.getD a 0 = D.get ⟨a, hlen⟩ := getD_get D 0 a hlen
      have hne : ¬(D.get ⟨a, hlen⟩ = v) := by
        rw [strict_eq_char hD v a hlen]
        omega
      show (if (a == INVALID_VALUE_ID) = true then false
        else cmpMatches PredicateCondition.equals (D.getD a 0) v) = false
      rw [if_neg hai]
      show (D.getD a 0 == v) = false
      rw [hx]
      simpa using hne
  · have h1 : (lower_bound D v == upper_bound D v) = false := by simpa using hw
    have hlt : lower_bound D v < upper_bound D v :=
      lt_of_le_of_ne (lower_le_upper D v) hw
    simp only [h1, Bool.not_false, Bool.true_and, Bool.false_eq_true, if_false]
    by_cases hU : D.length = 1
    · have h2 : (D.length == 1) = true := by simpa using hU
      simp only [h2, if_true]
      refine idxWhere_congr A 0 ?_
      intro a ha
      by_cases hai : (a == INVALID_VALUE_ID) = true
      · simp [hai]
      · have hai' : (a == INVALID_VALUE_ID) = false := by simpa using hai
        have hlen := mem_valid_id hmem ha hai'
        have hx : D.getD a 0 = D.get ⟨a, hlen⟩ := getD_get D 0 a hlen
        have hub := upper_bound_le_length D v
        have heq : D.get ⟨a, hlen⟩ = v := by
          rw [strict_eq_char hD v a hlen]
          omega
        show (!(a == INVALID_VALUE_ID)) = (if (a == INVALID_VALUE_ID) = true then false
          else cmpMatches PredicateCondition.equals (D.getD a 0) v)
        rw [if_neg hai, hai']
        show true = (D.getD a 0 == v)
        rw [hx]
        symm
        simpa using heq
    · have h2 : (D.length == 1) = false := by simpa using hU
      simp only [h2, Bool.and_false, Bool.false_eq_true, if_false]
      refine idxWhere_congr A 0 ?_
      intro a ha
      by_cases hai : (a == INVALID_VALUE_ID) = true
      · simp [hai]
      · have hai' : (a == INVALID_VALUE_ID) = false := by simpa using hai
        have hlen := mem_valid_id hmem ha hai'
        have hx : D.getD a 0 = D.get ⟨a, hlen⟩ := getD_get D 0 a hlen
        have hchar := strict_eq_char hD v a hlen
        have hbeq : (a == lower_bound D v) = (D.get ⟨a, hlen⟩ == v) := by
          by_cases heq : D.get ⟨a, hlen⟩ = v
          · have ha0 : a = lower_bound D v := (hchar.mp heq).1
            have e1 : (a == lower_bound D v) = true := by simpa using ha0
            have e2 : (D.get ⟨a, hlen⟩ == v) = true := by simpa using heq
            rw [e1, e2]
          · have ha0 : a ≠ lower_bound D v := fun h => heq (hchar.mpr ⟨h, hlt⟩)
            have e1 : (a == lower_bound D v) = false := by simpa using ha0
            have e2 : (D.get ⟨a, hlen⟩ == v) = false := by simpa using heq
            rw [e1, e2]
        show (!(a == INVALID_VALUE_ID) && (a == lower_bound D v))
          = (if (a == INVALID_VALUE_ID) = true then false
            else cmpMatches PredicateCondition.equals (D.getD a 0) v)
        rw [if_neg hai, hai']
        show (a == lower_bound D v) = (D.getD a 0 == v)
        rw [hx]
        exact hbeq

theorem dict_scan_not_equals (D : List Int) (A : List Nat)
    (hD : D.Pairwise (· < ·))
    (hmem : ∀ a ∈ A, a < D.length ∨ a = INVALID_VALUE_ID) (v : Int) :
    dict_scan D A PredicateCondition.notEquals v
      = value_scan (dictRows D A) PredicateCondition.notEquals v := by
  have hDle : D.Pairwise (· ≤ ·) := hD.imp (fun h => le_of_lt h)
  rw [value_scan_dict]
  simp only [dict_scan, search_value_id, right_value_matches_all, right_value_matches_none,
    dict_comp]
  by_cases hw : lower_bound D v = upper_bound D v
  · -- the searched value is absent: every non-null row matches
    have h1 : (lower_bound D v == upper_bound D v) = true := by simpa using hw
    simp only [h1, if_true]
    refine idxWhere_congr A 0 ?_
    intro a ha
    by_cases hai : (a == INVALID_VALUE_ID) = true
    · simp [hai]
    · have hai' : (a == INVALID_VALUE_ID) = false := by simpa using hai
      have hlen := mem_valid_id hmem ha hai'
      have hx : D.getD a 0 = D.get ⟨a, hlen⟩ := getD_get D 0 a hlen
      have hne : ¬(D.get ⟨a, hlen⟩ = v) := by
        rw [strict_eq_char hD v a hlen]
        omega
      show (!(a == INVALID_VALUE_ID)) = (if (a == INVALID_VALUE_ID) = true then false
        else cmpMatches PredicateCondition.notEquals (D.getD a 0) v)
      rw [if_neg hai, hai']
      show true = (!(D.getD a 0 == v))
      rw [hx]
      have : (D.get ⟨a, hlen⟩ == v) = false := by simpa using hne
      rw [this]
      rfl
  · have h1 : (lower_bound D v == upper_bound D v) = false := by simpa using hw
    have hlt : lower_bound D v < upper_bound D v :=
      lt_of_le_of_ne (lower_le_upper D v) hw
    simp only [h1, Bool.false_and, Bool.false_eq_true, if_false]
    refine idxWhere_congr A 0 ?_
    intro a ha
    by_cases hai : (a == INVALID_VALUE_ID) = true
    · simp [hai]
    · have hai' : (a == INVALID_VALUE_ID) = false := by simpa using hai
      have hlen := mem_valid_id hmem ha hai'
      have hx : D.getD a 0 = D.get ⟨a, hlen⟩ := getD_get D 0 a hlen
      have hchar := strict_eq_char hD v a hlen
      have hbeq : (a == lower_bound D v) = (D.get ⟨a, hlen⟩ == v) := by
        by_cases heq : D.get ⟨a, hlen⟩ = v
        · have ha0 : a = lower_bound D v := (hchar.mp heq).1
          have e1 : (a == lower_bound D v) = true := by simpa using ha0
          have e2 : (D.get ⟨a, hlen⟩ == v) = true := by simpa using heq
          rw [e1, e2]
        · have ha0 : a ≠ lower_bound D v := fun h => heq (hchar.mpr ⟨h, hlt⟩)
          have e1 : (a == lower_bound D v) = false := by simpa using ha0
          have e2 : (D.get ⟨a, hlen⟩ == v) = false := by simpa using heq
          rw [e1, e2]
      show (!(a == INVALID_VALUE_ID) && !(a == lower_bound D v))
        = (if (a == INVALID_VALUE_ID) = true then false
          else cmpMatches PredicateCondition.notEquals (D.getD a 0) v)
      rw [if_neg hai, hai']
      show (!(a == lower_bound D v)) = (!(D.getD a 0 == v))
      rw [hx, hbeq]

theorem dict_scan_less_than (D : List Int) (A : List Nat)
    (hD : D.Pairwise (· < ·)) (hU : D.length < INVALID_VALUE_ID)
    (hmem : ∀ a ∈ A, a < D.length ∨ a = INVALID_VALUE_ID) (v : Int) :
    dict_scan D A PredicateCondition.lessThan v
      = value_scan (dictRows D A) PredicateCondition.lessThan v := by
  have hDle : D.Pairwise (· ≤ ·) := hD.imp (fun h => le_of_lt h)
  rw [value_scan_dict]
  simp only [dict_scan, search_value_id, right_value_matches_all, right_value_matches_none,
    dict_comp]
  have hlb := lower_bound_le_length D v
  have hall : (lower_bound D v == INVALID_VALUE_ID) = false := by simp; omega
  simp only [hall, Bool.false_eq_true, if_false]
  by_cases h0 : lower_bound D v = 0
  · have h0' : (lower_bound D v == 0) = true := by simpa using h0
    simp only [h0', if_true]
    symm
    refine idxWhere_false A 0 ?_
    intro a ha
    by_cases hai : (a == INVALID_VALUE_ID) = true
    · simp [hai]
    · have hai' : (a == INVALID_VALUE_ID) = false := by simpa using hai
      have hlen := mem_valid_id hmem ha hai'
      have hx : D.getD a 0 = D.get ⟨a, hlen⟩ := getD_get D 0 a hlen
      show (if (a == INVALID_VALUE_ID) = true then false
        else cmpMatches PredicateCondition.lessThan (D.getD a 0) v) = false
      rw [if_neg hai]
      show decide (D.getD a 0 < v) = false
      rw [hx, sorted_lt_char hDle v a hlen, h0]
      simp
  · have h0' : (lower_bound D v == 0) = false := by simpa using h0
    simp only [h0', Bool.false_eq_true, if_false]
    refine idxWhere_congr A 0 ?_
    intro a ha
    by_cases hai : (a == INVALID_VALUE_ID) = true
    · simp [hai]
    · have hai' : (a == INVALID_VALUE_ID) = false := by simpa using hai
      have hlen := mem_valid_id hmem ha hai'
      have hx : D.getD a 0 = D.get ⟨a, hlen⟩ := getD_get D 0 a hlen
      show (!(a == INVALID_VALUE_ID) && decide (a < lower_bound D v))
        = (if (a == INVALID_VALUE_ID) = true then false
          else cmpMatches PredicateCondition.lessThan (D.getD a 0) v)
      rw [if_neg hai, hai']
      show decide (a < lower_bound D v) = decide (D.getD a 0 < v)
      rw [hx, sorted_lt_char hDle v a hlen]

theorem dict_scan_less_than_equals (D : List Int) (A : List Nat)
    (hD : D.Pairwise (· < ·)) (hU : D.length < INVALID_VALUE_ID)
    (hmem : ∀ a ∈ A, a < D.length ∨ a = INVALID_VALUE_ID) (v : Int) :
    dict_scan D A PredicateCondition.lessThanEquals v
      = value_scan (dictRows D A) PredicateCondition.lessThanEquals v := by
  have hDle : D.Pairwise (· ≤ ·) := hD.imp (fun h => le_of_lt h)
  rw [value_scan_dict]
  simp only [dict_scan, search_value_id, right_value_matches_all, right_value_matches_none,
    dict_comp]
  have hub := upper_bound_le_length D v
  have hall : (upper_bound D v == INVALID_VALUE_ID) = false := by simp; omega
  simp only [hall, Bool.false_eq_true, if_false]
  by_cases h0 : upper_bound D v = 0
  · have h0' : (upper_bound D v == 0) = true := by simpa using h0
    simp only [h0', if_true]
    symm
    refine idxWhere_false A 0 ?_
    intro a ha
    by_cases hai : (a == INVALID_VALUE_ID) = true
    · simp [hai]
    · have hai' : (a == INVALID_VALUE_ID) = false := by simpa using hai
      have hlen := mem_valid_id hmem ha hai'
      have hx : D.getD a 0 = D.get ⟨a, hlen⟩ := getD_get D 0 a hlen
      show (if (a == INVALID_VALUE_ID) = true then false
        else cmpMatches PredicateCondition.lessThanEquals (D.getD a 0) v) = false
      rw [if_neg hai]
      show decide (D.getD a 0 ≤ v) = false
      rw [hx, sorted_le_char hDle v a hlen, h0]
      simp
  · have h0' : (upper_bound D v == 0) = false := by simpa using h0
    simp only [h0', Bool.false_eq_true, if_false]
    refine idxWhere_congr A 0 ?_
    intro a ha
    by_cases hai : (a == INVALID_VALUE_ID) = true
    · simp [hai]
    · have hai' : (a == INVALID_VALUE_ID) = false := by simpa using hai
      have hlen := mem_valid_id hmem ha hai'
      have hx : D.getD a 0 = D.get ⟨a, hlen⟩ := getD_get D 0 a hlen
      show (!(a == INVALID_VALUE_ID) && decide (a < upper_bound D v))
        = (if (a == INVALID_VALUE_ID) = true then false
          else cmpMatches PredicateCondition.lessThanEquals (D.getD a 0) v)
      rw [if_neg hai, hai']
      show decide (a < upper_bound D v) = decide (D.getD a 0 ≤ v)
      rw [hx, sorted_le_char hDle v a hlen]

theorem dict_scan_greater_than (D : List Int) (A : List Nat)
    (hD : D.Pairwise (· < ·)) (hU : D.length < INVALID_VALUE_ID)
    (hmem : ∀ a ∈ A, a < D.length ∨ a = INVALID_VALUE_ID) (v : Int) :
    dict_scan D A PredicateCondition.greaterThan v
      = value_scan (dictRows D A) PredicateCondition.greaterThan v := by
  have hDle : D.Pairwise (· ≤ ·) := hD.imp (fun h => le_of_lt h)
  rw [value_scan_dict]
  simp only [dict_scan, search_value_id, right_value_matches_all, right_value_matches_none,
    dict_comp]
  have hub := upper_bound_le_length D v
  by_cases h0 : upper_bound D v = 0
  · have h0' : (upper_bound D v == 0) = true := by simpa using h0
    simp only [h0', if_true]
    refine idxWhere_congr A 0 ?_
    intro a ha
    by_cases hai : (a == INVALID_VALUE_ID) = true
    · simp [hai]
    · have hai' : (a == INVALID_VALUE_ID) = false := by simpa using hai
      have hlen := mem_valid_id hmem ha hai'
      have hx : D.getD a 0 = D.get ⟨a, hlen⟩ := getD_get D 0 a hlen
      have h1 : decide (D.get ⟨a, hlen⟩ ≤ v) = false := by
        rw [sorted_le_char hDle v a hlen, h0]
        simp
      have hgt : v < D.get ⟨a, hlen⟩ := not_le.mp (of_decide_eq_false h1)
      show (!(a == INVALID_VALUE_ID)) = (if (a == INVALID_VALUE_ID) = true then false
        else cmpMatches PredicateCondition.greaterThan (D.getD a 0) v)
      rw [if_neg hai, hai']
      show true = decide (v < D.getD a 0)
      rw [hx]
      exact (decide_eq_true hgt).symm
  · have h0' : (upper_bound D v == 0) = false := by simpa using h0
    have hnone : (upper_bound D v == INVALID_VALUE_ID) = false := by simp; omega
    simp only [h0', hnone, Bool.false_eq_true, if_false]
    refine idxWhere_congr A 0 ?_
    intro a ha
    by_cases hai : (a == INVALID_VALUE_ID) = true
    · simp [hai]
    · have hai' : (a == INVALID_VALUE_ID) = false := by simpa using hai
      have hlen := mem_valid_id hmem ha hai'
      have hx : D.getD a 0 = D.get ⟨a, hlen⟩ := getD_get D 0 a hlen
      have h1 := sorted_le_char hDle v a hlen
      show (!(a == INVALID_VALUE_ID) && decide (upper_bound D v ≤ a))
        = (if (a == INVALID_VALUE_ID) = true then false
          else cmpMatches PredicateCondition.greaterThan (D.getD a 0) v)
      rw [if_neg hai, hai']
      show decide (upper_bound D v ≤ a) = decide (v < D.getD a 0)
      rw [hx]
      by_cases hcase : a < upper_bound D v
      · have e1 : decide (upper_bound D v ≤ a) = false := decide_eq_false (by omega)
        have e2 : D.get ⟨a, hlen⟩ ≤ v := of_decide_eq_true (by rw [h1]; simpa using hcase)
        have e3 : decide (v < D.get ⟨a, hlen⟩) = false := decide_eq_false (by omega)
        rw [e1, e3]
      · have e1 : decide (upper_bound D v ≤ a) = true := decide_eq_true (by omega)
        have e2 : ¬(D.get ⟨a, hlen⟩ ≤ v) :=
          of_decide_eq_false (by rw [h1]; simpa using hcase)
        have e3 : decide (v < D.get ⟨a, hlen⟩) = true := decide_eq_true (by omega)
        rw [e1, e3]

theorem dict_scan_greater_than_equals (D : List Int) (A : List Nat)
    (hD : D.Pairwise (· < ·)) (hU : D.length < INVALID_VALUE_ID)
    (hmem : ∀ a ∈ A, a < D.length ∨ a = INVALID_VALUE_ID) (v : Int) :
    dict_scan D A PredicateCondition.greaterThanEquals v
      = value_scan (dictRows D A) PredicateCondition.greaterThanEquals v := by
  have hDle : D.Pairwise (· ≤ ·) := hD.imp (fun h => le_of_lt h)
  rw [value_scan_dict]
  simp only [dict_scan, search_value_id, right_value_matches_all, right_value_matches_none,
    dict_comp]
  have hlb := lower_bound_le_length D v
  by_cases h0 : lower_bound D v = 0
  · have h0' : (lower_bound D v == 0) = true := by simpa using h0
    simp only [h0', if_true]
    refine idxWhere_congr A 0 ?_
    intro a ha
    by_cases hai : (a == INVALID_VALUE_ID) = true
    · simp [hai]
    · have hai' : (a == INVALID_VALUE_ID) = false := by simpa using hai
      have hlen := mem_valid_id hmem ha hai'
      have hx : D.getD a 0 = D.get ⟨a, hlen⟩ := getD_get D 0 a hlen
      have h1 : decide (D.get ⟨a, hlen⟩ < v) = false := by
        rw [sorted_lt_char hDle v a hlen, h0]
        simp
      have hge : v ≤ D.get ⟨a, hlen⟩ := not_lt.mp (of_decide_eq_false h1)
      show (!(a == INVALID_VALUE_ID)) = (if (a == INVALID_VALUE_ID) = true then false
        else cmpMatches PredicateCondition.greaterThanEquals (D.getD a 0) v)
      rw [if_neg hai, hai']
      show true = decide (v ≤ D.getD a 0)
      rw [hx]
      exact (decide_eq_true hge).symm
  · have h0' : (lower_bound D v == 0) = false := by simpa using h0
    have hnone : (lower_bound D v == INVALID_VALUE_ID) = false := by simp; omega
    simp only [h0', hnone, Bool.false_eq_true, if_false]
    refine idxWhere_congr A 0 ?_
    intro a ha
    by_cases hai : (a == INVALID_VALUE_ID) = true
    · simp [hai]
    · have hai' : (a == INVALID_VALUE_ID) = false := by simpa using hai
      have hlen := mem_valid_id hmem ha hai'
      have hx : D.getD a 0 = D.get ⟨a, hlen⟩ := getD_get D 0 a hlen
      have h1 := sorted_lt_char hDle v a hlen
      show (!(a == INVALID_VALUE_ID) && decide (lower_bound D v ≤ a))
        = (if (a == INVALID_VALUE_ID) = true then false
          else cmpMatches PredicateCondition.greaterThanEquals (D.getD a 0) v)
      rw [if_neg hai, hai']
      show decide (lower_bound D v ≤ a) = decide (v ≤ D.getD a 0)
      rw [hx]
      by_cases hcase : a < lower_bound D v
      · have e1 : decide (lower_bound D v ≤ a) = false := decide_eq_false (by omega)
        have e2 : D.get ⟨a, hlen⟩ < v := of_decide_eq_true (by rw [h1]; simpa using hcase)
        have e3 : decide (v ≤ D.get ⟨a, hlen⟩) = false := decide_eq_false (by omega)
        rw [e1, e3]
      · have e1 : decide (lower_bound D v ≤ a) = true := decide_eq_true (by omega)
        have e2 : ¬(D.get ⟨a, hlen⟩ < v) :=
          of_decide_eq_false (by rw [h1]; simpa using hcase)
        have e3 : decide (v ≤ D.get ⟨a, hlen⟩) = true := decide_eq_true (by omega)
        rw [e1, e3]

theorem scan_chunk_value_comparison (rows : List (Option Int)) (c : PredicateCondition)
    (v : Int) (v2 : Option (Option Int)) (hc : isComparison c = true) :
    scan_chunk (Segment.valueSeg rows) c (some v) v2 = value_scan rows c v := by
  cases c <;> first
    | rfl
    | simp [isComparison] at hc

theorem value_scan_no_nulls (rows : List (Option Int)) (c : PredicateCondition) (v : Int) :
    ∀ j ∈ value_scan rows c v, ∃ x, rows.getD j none = some x := by
  intro j hj
  obtain ⟨-, -, h3⟩ := idxWhere_mem _ none rows 0 j hj
  simp only [Nat.sub_zero] at h3
  match hcell : rows.getD j none with
  | none =>
    rw [hcell] at h3
    simp at h3
  | some x => exact ⟨x, rfl⟩

/-- C2: for every dictionary-encoded segment (strictly sorted dictionary,
value-ids valid or the null sentinel) and every single-literal comparison
with a non-null literal, the dictionary scan path — search value-id,
matches-all/none early-outs, per-value-id match rule — emits exactly the
same positions as the generic value scan over the same logical data; rows
whose value-id is the null sentinel are never emitted, including when the
matches-all early-out fires. -/
theorem C2_dict_scan_equiv (D : List Int) (A : List Nat)
    (hD : D.Pairwise (· < ·)) (hU : D.length < INVALID_VALUE_ID)
    (hA : A.all (fun a => decide (a < D.length) || (a == INVALID_VALUE_ID)) = true)
    (c : PredicateCondition) (hc : isComparison c = true) (v : Int) :
    scan_chunk (Segment.dictSeg D A) c (some v) none
        = scan_chunk (Segment.valueSeg (dictRows D A)) c (some v) none ∧
      ∀ j ∈ scan_chunk (Segment.dictSeg D A) c (some v) none,
        ∃ x, (dictRows D A).getD j none = some x := by
  have hmem : ∀ a ∈ A, a < D.length ∨ a = INVALID_VALUE_ID := by
    intro a ha
    have := List.all_eq_true.mp hA a ha
    rcases Bool.or_eq_true_iff.mp this with h | h
    · exact Or.inl (of_decide_eq_true h)
    · exact Or.inr (by simpa using h)
  have hmain : scan_chunk (Segment.dictSeg D A) c (some v) none
      = scan_chunk (Segment.valueSeg (dictRows D A)) c (some v) none := by
    cases c with
    | equals => exact dict_scan_equals D A hD hmem v
    | notEquals => exact dict_scan_not_equals D A hD hmem v
    | lessThan => exact dict_scan_less_than D A hD hU hmem v
    | lessThanEquals => exact dict_scan_less_than_equals D A hD hU hmem v
    | greaterThan => exact dict_scan_greater_than D A hD hU hmem v
    | greaterThanEquals => exact dict_scan_greater_than_equals D A hD hU hmem v
    | _ => simp [isComparison] at hc
  refine ⟨hmain, ?_⟩
  intro j hj
  rw [hmain, scan_chunk_value_comparison (dictRows D A) c v none hc] at hj
  exact value_scan_no_nulls (dictRows D A) c v j hj

/-- Witness for C2 on the dictionary [10,20,30] with attribute vector
[0,1,2,1,INVALID] and predicate GreaterThanEquals 20 (spec scenario 3). -/
theorem C2_dict_scan_equiv_witness :
    scan_chunk (Segment.dictSeg [10, 20, 30] [0, 1, 2, 1, 4294967295])
        PredicateCondition.greaterThanEquals (some 20) none
      = scan_chunk
          (Segment.valueSeg (dictRows [10, 20, 30] [0, 1, 2, 1, 4294967295]))
          PredicateCondition.greaterThanEquals (some 20) none :=
  (C2_dict_scan_equiv [10, 20, 30] [0, 1, 2, 1, 4294967295] (by decide) (by decide)
    (by decide) PredicateCondition.greaterThanEquals (by decide) 20).1

/-- Min-max filter statistic: `(min, max)` over the non-null values. -/
structure MinMaxFilter where
  fmin : Int
  fmax : Int
deriving DecidableEq, Repr

/-- Modelled from the spec: `MinMaxFilter::does_not_contain` (its body is
not under src/) — the strictness table of spec 4.1; a null literal, a
supplied null second literal, IS [NOT] NULL and unsupported conditions never
prune. -/
def minmax_does_not_contain (f : MinMaxFilter) (c : PredicateCondition)
    (v : Option Int) (v2 : Option (Option Int)) : Bool :=
  match v with
  | none => false
  | some x =>
    if v2 == some none then false
    else
      match c with
      | .equals => decide (x < f.fmin) || decide (f.fmax < x)
      | .notEquals => decide (f.fmin = f.fmax) && decide (f.fmin = x)
      | .lessThan => decide (x ≤ f.fmin)
      | .lessThanEquals => decide (x < f.fmin)
      | .greaterThan => decide (f.fmax ≤ x)
      | .greaterThanEquals => decide (f.fmax < x)
      | .between =>
        match v2 with
        | some (some y) => decide (y < f.fmin) || decide (f.fmax < x)
        | _ => false
      | _ => false

/-- Modelled from the spec: the cardinality estimate tag is `MatchesNone`
exactly when `does_not_contain` holds, otherwise approximate. -/
def minmax_estimate_type (f : MinMaxFilter) (c : PredicateCondition)
    (v : Option Int) (v2 : Option (Option Int)) : EstimateType :=
  if minmax_does_not_contain f c v v2 then EstimateType.matchesNone
  else EstimateType.matchesApproximately

/-- Min-max filter built from a segment's sorted dictionary: front/back. -/
def minmax_from_dict (D : List Int) : MinMaxFilter :=
  { fmin := D.headD 0, fmax := D.getLastD 0 }

/-- Largest difference representable in the 32-bit integer element type;
wider gaps cannot be stored in the type and are dropped (spec 4.2 step 2). -/
def REPR_MAX : Int := 2147483647

/-- Gaps between consecutive dictionary values, tagged with the index of the
left neighbour; differences are taken in unbounded (wide) arithmetic. -/
def gapList : List Int → Nat → List (Nat × Int)
  | x :: y :: rest, i => (i, y - x) :: gapList (y :: rest) (i + 1)
  | _, _ => []

/-- First entry carrying the largest gap. -/
def argmaxGap : List (Nat × Int) → Option (Nat × Int)
  | [] => none
  | g :: gs =>
    match argmaxGap gs with
    | none => some g
    | some m => if decide (g.2 < m.2) then some m else some g

/-- Indices of the `k` largest gaps, picked greedily. -/
def pickSplits : Nat → List (Nat × Int) → List Nat
  | 0, _ => []
  | k + 1, gaps =>
    match argmaxGap gaps with
    | none => []
    | some m => m.1 :: pickSplits k (gaps.filter (fun g => !(g.1 == m.1)))

/-- Closed ranges of a range filter: split the sorted dictionary after every
index in `S`, one range per contiguous run. -/
def buildRanges : List Int → Nat → Int → List Nat → List (Int × Int)
  | [], _, _, _ => []
  | [x], _, start, _ => [(start, x)]
  | x :: y :: rest, i, start, S =>
    if S.contains i then (start, x) :: buildRanges (y :: rest) (i + 1) y S
    else buildRanges (y :: rest) (i + 1) start S

/-- Modelled from the spec (`RangeFilter::build_filter` body is not under
src/): compute the consecutive gaps in wide arithmetic, drop every gap
exceeding the element type's representable range, and split at the
`max_ranges - 1` largest remaining gaps (spec 4.2 steps 2-3). -/
def build_filter_ranges (D : List Int) (maxRanges : Nat) : List (Int × Int) :=
  match D with
  | [] => []
  | x :: _ =>
    let gaps := (gapList D 0).filter (fun g => decide (g.2 ≤ REPR_MAX))
    buildRanges D 0 x (pickSplits (maxRanges - 1) gaps)

/-- Ascending (non-strict) sortedness check of the debug assertion. -/
def isSortedAsc : List Int → Bool
  | [] => true
  | [_] => true
  | x :: y :: rest => decide (x ≤ y) && isSortedAsc (y :: rest)

/-- Modelled from the spec: the checked `RangeFilter::build_filter` entry —
`InvalidArgument` when `max_ranges < 1`; the ascending-sortedness assertion
is active only in debug builds (spec 4.2 step 1). -/
def build_filter (debug : Bool) (values : List Int) (maxRanges : Nat) :
    Except String (List (Int × Int)) :=
  if maxRanges < 1 then Except.error "InvalidArgument"
  else if debug && !(isSortedAsc values) then Except.error "InvalidArgument"
  else Except.ok (build_filter_ranges values maxRanges)

/-- Does `[x, y]` fall entirely inside one of the gaps between consecutive
ranges? -/
def insideGap (x y : Int) : List (Int × Int) → Bool
  | r1 :: r2 :: rest => (decide (r1.2 < x) && decide (y < r2.1)) || insideGap x y (r2 :: rest)
  | _ => false

/-- Modelled from the spec (`RangeFilter::does_not_contain` body is not
under src/): Equals prunes iff the value lies outside every range; LessThan
iff `v ≤ l₀`, LessThanEquals iff `v < l₀`; GreaterThan iff `v ≥ h_last`,
GreaterThanEquals iff `v > h_last`; Between iff the interval lies outside
the outer bounds or inside one inter-range gap; nothing else prunes, and a
null literal or a supplied null second literal never prunes (spec 4.2;
RangeFilterTest.DoNotPruneUnsupportedPredicates). -/
def range_does_not_contain (ranges : List (Int × Int)) (c : PredicateCondition)
    (v : Option Int) (v2 : Option (Option Int)) : Bool :=
  match v with
  | none => false
  | some x =>
    if v2 == some none then false
    else
      match c with
      | .equals => ranges.all (fun r => decide (x < r.1) || decide (r.2 < x))
      | .lessThan => decide (x ≤ (ranges.headD (0, 0)).1)
      | .lessThanEquals => decide (x < (ranges.headD (0, 0)).1)
      | .greaterThan => decide ((ranges.getLastD (0, 0)).2 ≤ x)
      | .greaterThanEquals => decide ((ranges.getLastD (0, 0)).2 < x)
      | .between =>
        match v2 with
        | some (some y) =>
          decide (y < (ranges.headD (0, 0)).1)
            || decide ((ranges.getLastD (0, 0)).2 < x)
            || insideGap x y ranges
        | _ => false
      | _ => false

/-- Partition the sorted distinct values into `b + 1` contiguous groups of
near-equal size (ceiling division for the leading groups). -/
def bins_go : List Int → Nat → List (List Int)
  | vs, 0 => [vs]
  | vs, b + 1 =>
    vs.take ((vs.length + b + 1) / (b + 2))
      :: bins_go (vs.drop ((vs.length + b + 1) / (b + 2))) b

/-- Modelled from the spec: the bin bounds of an equal-distinct-count
histogram with `B` bins over the sorted distinct values (heights play no
role in pruning). -/
def hist_bins (D : List Int) (B : Nat) : List (Int × Int) :=
  (bins_go D (B - 1)).filterMap (fun g =>
    match g with
    | [] => none
    | x :: xs => some (x, List.getLastD xs x))

/-- Modelled from the spec: histogram pruning — Equals prunes exactly when
the value lies inside no bin; other conditions do not prune (spec 4.3). -/
def hist_does_not_contain (bins : List (Int × Int)) (c : PredicateCondition)
    (v : Option Int) (v2 : Option (Option Int)) : Bool :=
  match v with
  | none => false
  | some x =>
    if v2 == some none then false
    else
      match c with
      | .equals => bins.all (fun r => decide (x < r.1) || decide (r.2 < x))
      | _ => false

/-- The reference distinct values of the range-filter tests. -/
def refValues : List Int := [-1000, 2, 3, 4, 7, 8, 10, 17, 100, 101, 102, 103, 123456]

/-- C4: for a min-max filter with `min ≤ max`, `does_not_contain` holds
exactly per the strictness table — Equals v iff `v < min ∨ v > max`;
LessThan v iff `v ≤ min`; LessThanEquals v iff `v < min`; GreaterThan v iff
`v ≥ max`; GreaterThanEquals v iff `v > max`; Between v1 v2 iff
`v2 < min ∨ v1 > max`; never for IsNull/IsNotNull, null literals or
unsupported conditions — and the cardinality-estimate tag is `MatchesNone`
exactly when `does_not_contain` is true. -/
theorem C4_minmax_table (mn mx : Int) (h : mn ≤ mx) (v : Int) :
    (minmax_does_not_contain ⟨mn, mx⟩ PredicateCondition.equals (some v) none = true
        ↔ v < mn ∨ mx < v) ∧
      (minmax_does_not_contain ⟨mn, mx⟩ PredicateCondition.lessThan (some v) none = true
        ↔ v ≤ mn) ∧
      (minmax_does_not_contain ⟨mn, mx⟩ PredicateCondition.lessThanEquals (some v) none = true
        ↔ v < mn) ∧
      (minmax_does_not_contain ⟨mn, mx⟩ PredicateCondition.greaterThan (some v) none = true
        ↔ mx ≤ v) ∧
      (minmax_does_not_contain ⟨mn, mx⟩ PredicateCondition.greaterThanEquals (some v) none
          = true ↔ mx < v) ∧
      (∀ w : Int,
        minmax_does_not_contain ⟨mn, mx⟩ PredicateCondition.between (some v) (some (some w))
            = true ↔ w < mn ∨ mx < v) ∧
      (minmax_does_not_contain ⟨mn, mx⟩ PredicateCondition.isNull (some v) none = false) ∧
      (minmax_does_not_contain ⟨mn, mx⟩ PredicateCondition.isNotNull (some v) none = false) ∧
      (minmax_does_not_contain ⟨mn, mx⟩ PredicateCondition.likeCond (some v) none = false) ∧
      (minmax_does_not_contain ⟨mn, mx⟩ PredicateCondition.inCond (some v) none = false) ∧
      (∀ c v2, minmax_does_not_contain ⟨mn, mx⟩ c none v2 = false) ∧
      (∀ c w, minmax_does_not_contain ⟨mn, mx⟩ c (some w) (some none) = false) ∧
      (∀ c w w2,
        minmax_estimate_type ⟨mn, mx⟩ c w w2 = EstimateType.matchesNone
          ↔ minmax_does_not_contain ⟨mn, mx⟩ c w w2 = true) := by
  refine ⟨by simp [minmax_does_not_contain], by simp [minmax_does_not_contain],
    by simp [minmax_does_not_contain], by simp [minmax_does_not_contain],
    by simp [minmax_does_not_contain], fun w => by simp [minmax_does_not_contain],
    rfl, rfl, rfl, rfl, fun c v2 => rfl, ?_, ?_⟩
  · intro c w
    cases c <;> simp [minmax_does_not_contain]
  · intro c w w2
    unfold minmax_estimate_type
    by_cases hd : minmax_does_not_contain ⟨mn, mx⟩ c w w2 = true
    · simp [hd]
    · simp [hd]

/-- Witness for C4 at the bounds of the min-max filter test (values
-1000 .. 123456). -/
theorem C4_minmax_table_witness :
    (minmax_does_not_contain ⟨-1000, 123456⟩ PredicateCondition.lessThan (some (-1000)) none
        = true ↔ (-1000 : Int) ≤ -1000) ∧
      (minmax_does_not_contain ⟨-1000, 123456⟩ PredicateCondition.lessThanEquals
          (some (-1000)) none = true ↔ (-1000 : Int) < -1000) :=
  ⟨(C4_minmax_table (-1000) 123456 (by decide) (-1000)).2.1,
   (C4_minmax_table (-1000) 123456 (by decide) (-1000)).2.2.1⟩

/-- C10: a range-filter pruning call whose second argument is supplied and
null never prunes, for every condition and first literal — even when the
same call without the second argument would prune: on the filter over
{-1000, -900, 900, 1000}, Equals 1 prunes but Equals 1 with a null second
literal does not. -/
theorem C10_null_second_literal (ranges : List (Int × Int)) (c : PredicateCondition)
    (v : Option Int) :
    range_does_not_contain ranges c v (some none) = false ∧
      range_does_not_contain (build_filter_ranges [-1000, -900, 900, 1000] 10)
          PredicateCondition.equals (some 1) none = true ∧
      range_does_not_contain (build_filter_ranges [-1000, -900, 900, 1000] 10)
          PredicateCondition.equals (some 1) (some none) = false := by
  refine ⟨?_, by decide, by decide⟩
  match v with
  | none => rfl
  | some x => simp [range_does_not_contain]

theorem getLastD_irrel {α : Type} (d1 d2 : α) :
    ∀ (l : List α), l ≠ [] → l.getLastD d1 = l.getLastD d2 := by
  intro l h
  cases l with
  | nil => exact absurd rfl h
  | cons a as => rw [List.getLastD_cons, List.getLastD_cons]

theorem buildRanges_no_splits : ∀ (L : List Int) (i : Nat) (s : Int),
    L ≠ [] → buildRanges L i s [] = [(s, L.getLastD 0)] := by
  intro L
  induction L with
  | nil => intro i s h; exact absurd rfl h
  | cons x xs ih =>
    intro i s _
    cases xs with
    | nil => rfl
    | cons y rest =>
      show buildRanges (x :: y :: rest) i s [] = _
      rw [buildRanges, if_neg (by simp)]
      rw [ih (i + 1) s (by simp)]
      simp [List.getLastD_cons]

theorem build_filter_ranges_single (D : List Int) (hne : D ≠ []) :
    build_filter_ranges D 1 = [(D.headD 0, D.getLastD 0)] := by
  cases D with
  | nil => exact absurd rfl hne
  | cons x xs =>
    show buildRanges (x :: xs) 0 x [] = [((x :: xs).headD 0, (x :: xs).getLastD 0)]
    rw [buildRanges_no_splits (x :: xs) 0 x (by simp)]
    rfl

/-- C5: a range filter built with `max_ranges = 1` from a sorted
distinct-value input answers `does_not_contain` identically to a min-max
filter built from the same data, for every condition other than NotEquals
(the single-range filter never prunes NotEquals, while the min-max filter
prunes it when `min = max = literal`); on the reference values it prunes
LessThan -1000, does not prune GreaterThan -1000 and does not prune
Equals 1024. -/
theorem C5_single_range_eq_minmax (D : List Int) (hD : D.Pairwise (· < ·)) (hne : D ≠ [])
    (c : PredicateCondition) (hc : c ≠ PredicateCondition.notEquals)
    (v : Option Int) (v2 : Option (Option Int)) :
    range_does_not_contain (build_filter_ranges D 1) c v v2
        = minmax_does_not_contain (minmax_from_dict D) c v v2 ∧
      range_does_not_contain (build_filter_ranges refValues 1)
          PredicateCondition.lessThan (some (-1000)) none = true ∧
      range_does_not_contain (build_filter_ranges refValues 1)
          PredicateCondition.greaterThan (some (-1000)) none = false ∧
      range_does_not_contain (build_filter_ranges refValues 1)
          PredicateCondition.equals (some 1024) none = false := by
  refine ⟨?_, by decide, by decide, by decide⟩
  rw [build_filter_ranges_single D hne]
  match v with
  | none => rfl
  | some x =>
    by_cases hv2 : v2 = some none
    · subst hv2
      rfl
    · have hg : (v2 == some none) = false := by simpa using hv2
      cases c with
      | notEquals => exact absurd rfl hc
      | between =>
        match v2 with
        | none => rfl
        | some none => exact absurd rfl hv2
        | some (some y) =>
          simp [range_does_not_contain, minmax_does_not_contain, minmax_from_dict, insideGap]
      | equals =>
        simp [range_does_not_contain, minmax_does_not_contain, hg, minmax_from_dict]
      | lessThan =>
        simp [range_does_not_contain, minmax_does_not_contain, hg, minmax_from_dict]
      | lessThanEquals =>
        simp [range_does_not_contain, minmax_does_not_contain, hg, minmax_from_dict]
      | greaterThan =>
        simp [range_does_not_contain, minmax_does_not_contain, hg, minmax_from_dict]
      | greaterThanEquals =>
        simp [range_does_not_contain, minmax_does_not_contain, hg, minmax_from_dict]
      | isNull =>
        simp [range_does_not_contain, minmax_does_not_contain, hg]
      | isNotNull =>
        simp [range_does_not_contain, minmax_does_not_contain, hg]
      | likeCond =>
        simp [range_does_not_contain, minmax_does_not_contain, hg]
      | notLikeCond =>
        simp [range_does_not_contain, minmax_does_not_contain, hg]
      | inCond =>
        simp [range_does_not_contain, minmax_does_not_contain, hg]
      | notInCond =>
        simp [range_does_not_contain, minmax_does_not_contain, hg]

/-- C5 counterexample: on the single-valued sorted input [5], the min-max
filter (min = max = 5) prunes NotEquals 5 but the single-range filter does
not, so the two do not answer identically for every predicate condition. -/
theorem C5_notequals_counterexample :
    range_does_not_contain (build_filter_ranges [5] 1) PredicateCondition.notEquals
        (some 5) none
      ≠ minmax_does_not_contain (minmax_from_dict [5]) PredicateCondition.notEquals
        (some 5) none := by decide

/-- Witness for C5 on the reference values with LessThan -1000. -/
theorem C5_single_range_eq_minmax_witness :
    range_does_not_contain (build_filter_ranges refValues 1) PredicateCondition.lessThan
        (some (-1000)) none
      = minmax_does_not_contain (minmax_from_dict refValues) PredicateCondition.lessThan
        (some (-1000)) none :=
  (C5_single_range_eq_minmax refValues (by decide) (by decide)
    PredicateCondition.lessThan (by decide) (some (-1000)) none).1

theorem sorted_head_le {D : List Int} (hD : D.Pairwise (· ≤ ·)) :
    ∀ y ∈ D, D.headD 0 ≤ y := by
  intro y hy
  cases D with
  | nil => simp at hy
  | cons x xs =>
    rcases List.mem_cons.mp hy with rfl | hy'
    · exact le_refl y
    · exact (List.pairwise_cons.mp hD).1 y hy'

theorem sorted_le_last {D : List Int} (hD : D.Pairwise (· ≤ ·)) :
    ∀ y ∈ D, y ≤ D.getLastD 0 := by
  intro y hy
  obtain ⟨⟨i, hi⟩, rfl⟩ := List.mem_iff_get.mp hy
  have hne : D ≠ [] := by
    intro h
    subst h
    simp at hi
  have hlast : D.getLastD 0 = D.get ⟨D.length - 1, by omega⟩ := by
    rw [List.getLastD_eq_getLast?, List.getLast?_eq_getLast D hne]
    simp [List.getLast_eq_get]
  rw [hlast]
  rcases Nat.lt_or_ge i (D.length - 1) with hlt | hge
  · exact List.pairwise_iff_get.mp hD ⟨i, hi⟩ ⟨D.length - 1, by omega⟩ hlt
  · have hieq : i = D.length - 1 := by omega
    subst hieq
    exact le_refl _

theorem buildRanges_head : ∀ (L : List Int) (i : Nat) (s : Int) (S : List Nat),
    L ≠ [] → ∃ e tl, buildRanges L i s S = (s, e) :: tl ∧ e ∈ L := by
  intro L
  induction L with
  | nil => intro i s S h; exact absurd rfl h
  | cons x xs ih =>
    intro i s S _
    cases xs with
    | nil => exact ⟨x, [], rfl, by simp⟩
    | cons y rest =>
      rw [buildRanges]
      by_cases hsp : S.contains i = true
      · rw [if_pos hsp]
        exact ⟨x, _, rfl, by simp⟩
      · rw [if_neg hsp]
        obtain ⟨e, tl, heq, hmem⟩ := ih (i + 1) s S (by simp)
        exact ⟨e, tl, heq, List.mem_cons_of_mem x hmem⟩

theorem buildRanges_cover : ∀ (L : List Int) (i : Nat) (s : Int) (S : List Nat),
    List.Chain' (· < ·) L → s ≤ L.headD 0 →
    ∀ z ∈ L, ∃ r ∈ buildRanges L i s S, r.1 ≤ z ∧ z ≤ r.2 := by
  intro L
  induction L with
  | nil => intro i s S _ _ z hz; simp at hz
  | cons x xs ih =>
    intro i s S hchain hs z hz
    cases xs with
    | nil =>
      have hz' : z = x := by simpa using hz
      subst hz'
      exact ⟨(s, z), by simp [buildRanges], by simpa using hs, le_refl z⟩
    | cons y rest =>
      obtain ⟨hxy, htail⟩ := List.chain'_cons.mp hchain
      rw [buildRanges]
      by_cases hsp : S.contains i = true
      · rw [if_pos hsp]
        rcases List.mem_cons.mp hz with rfl | hz'
        · exact ⟨(s, z), by simp, by simpa using hs, le_refl z⟩
        · obtain ⟨r, hr, h1, h2⟩ := ih (i + 1) y S htail (by simp) z hz'
          exact ⟨r, List.mem_cons_of_mem _ hr, h1, h2⟩
      · rw [if_neg hsp]
        have hs' : s ≤ x := by simpa using hs
        rcases List.mem_cons.mp hz with rfl | hz'
        · obtain ⟨e, tl, heq, hemem⟩ := buildRanges_head (y :: rest) (i + 1) s S (by simp)
          rw [heq]
          have hgt : ∀ b ∈ y :: rest, z < b := by
            have hp : List.Pairwise (· < ·) (z :: y :: rest) :=
              List.chain'_iff_pairwise.mp hchain
            exact (List.pairwise_cons.mp hp).1
          exact ⟨(s, e), by simp, hs', le_of_lt (hgt e hemem)⟩
        · obtain ⟨r, hr, h1, h2⟩ :=
            ih (i + 1) s S htail (by simpa using le_of_lt (lt_of_le_of_lt hs' hxy)) z hz'
          exact ⟨r, hr, h1, h2⟩

theorem buildRanges_wf : ∀ (L : List Int) (i : Nat) (s : Int) (S : List Nat),
    List.Chain' (· < ·) L → s ≤ L.headD 0 →
    (∀ r ∈ buildRanges L i s S, r.1 ≤ r.2) ∧
      List.Chain' (fun r t => r.2 < t.1) (buildRanges L i s S) := by
  intro L
  induction L with
  | nil =>
    intro i s S _ _
    exact ⟨by simp [buildRanges], by simp [buildRanges]⟩
  | cons x xs ih =>
    intro i s S hchain hs
    cases xs with
    | nil =>
      refine ⟨?_, List.chain'_singleton _⟩
      intro r hr
      have : r = (s, x) := by simpa [buildRanges] using hr
      subst this
      simpa using hs
    | cons y rest =>
      obtain ⟨hxy, htail⟩ := List.chain'_cons.mp hchain
      have hs' : s ≤ x := by simpa using hs
      rw [buildRanges]
      by_cases hsp : S.contains i = true
      · rw [if_pos hsp]
        obtain ⟨hwf, hch⟩ := ih (i + 1) y S htail (by simp)
        constructor
        · intro r hr
          rcases List.mem_cons.mp hr with rfl | hr'
          · exact hs'
          · exact hwf r hr'
        · rw [List.chain'_cons']
          refine ⟨?_, hch⟩
          intro b hb
          obtain ⟨e, tl, heq, -⟩ := buildRanges_head (y :: rest) (i + 1) y S (by simp)
          rw [heq] at hb
          simp at hb
          rw [← hb]
          simpa using hxy
      · rw [if_neg hsp]
        exact ih (i + 1) s S htail (by simpa using le_of_lt (lt_of_le_of_lt hs' hxy))

theorem buildRanges_last : ∀ (L : List Int) (i : Nat) (s : Int) (S : List Nat), L ≠ [] →
    ((buildRanges L i s S).getLastD (0, 0)).2 = L.getLastD 0 := by
  intro L
  induction L with
  | nil => intro i s S h; exact absurd rfl h
  | cons x xs ih =>
    intro i s S _
    cases xs with
    | nil => rfl
    | cons y rest =>
      rw [buildRanges]
      by_cases hsp : S.contains i = true
      · rw [if_pos hsp]
        obtain ⟨e, tl, heq, -⟩ := buildRanges_head (y :: rest) (i + 1) y S (by simp)
        have hne : buildRanges (y :: rest) (i + 1) y S ≠ [] := by
          rw [heq]; simp
        rw [List.getLastD_cons, getLastD_irrel (s, x) (0, 0) _ hne, ih (i + 1) y S (by simp)]
        simp [List.getLastD_cons]
      · rw [if_neg hsp]
        rw [ih (i + 1) s S (by simp)]
        simp [List.getLastD_cons]

theorem ranges_pairwise : ∀ (rs : List (Int × Int)),
    List.Chain' (fun r t => r.2 < t.1) rs → (∀ r ∈ rs, r.1 ≤ r.2) →
    List.Pairwise (fun r t => r.2 < t.1) rs := by
  intro rs
  induction rs with
  | nil => intro _ _; exact List.Pairwise.nil
  | cons a rest ih =>
    intro hchain hwf
    have hp := ih hchain.tail (fun r hr => hwf r (List.mem_cons_of_mem a hr))
    refine List.pairwise_cons.mpr ⟨?_, hp⟩
    intro b hb
    cases rest with
    | nil => simp at hb
    | cons c rest2 =>
      have hac : a.2 < c.1 := (List.chain'_cons.mp hchain).1
      rcases List.mem_cons.mp hb with rfl | hb'
      · exact hac
      · have hcb := (List.pairwise_cons.mp hp).1 b hb'
        have hc := hwf c (by simp)
        omega

theorem insideGap_left : ∀ (rs : List (Int × Int)) (x y : Int),
    insideGap x y rs = true → ∃ r ∈ rs, r.2 < x := by
  intro rs
  induction rs with
  | nil => intro x y h; simp [insideGap] at h
  | cons r1 rest ih =>
    intro x y h
    cases rest with
    | nil => simp [insideGap] at h
    | cons r2 rest2 =>
      rw [insideGap] at h
      rcases (Bool.or_eq_true _ _).mp h with hgap | hrec
      · obtain ⟨h1, -⟩ := (Bool.and_eq_true _ _).mp hgap
        exact ⟨r1, by simp, of_decide_eq_true h1⟩
      · obtain ⟨r, hr, hrx⟩ := ih x y hrec
        exact ⟨r, List.mem_cons_of_mem r1 hr, hrx⟩

theorem insideGap_excludes : ∀ (rs : List (Int × Int)) (x y z : Int),
    insideGap x y rs = true →
    List.Chain' (fun r t => r.2 < t.1) rs →
    (∀ r ∈ rs, r.1 ≤ r.2) →
    (∃ r ∈ rs, r.1 ≤ z ∧ z ≤ r.2) →
    ¬(x ≤ z ∧ z ≤ y) := by
  intro rs
  induction rs with
  | nil => intro x y z h; simp [insideGap] at h
  | cons r1 rest ih =>
    intro x y z h hchain hwf hcov
    cases rest with
    | nil => simp [insideGap] at h
    | cons r2 rest2 =>
      rw [insideGap] at h
      have hp := ranges_pairwise _ hchain hwf
      rcases (Bool.or_eq_true _ _).mp h with hgap | hrec
      · obtain ⟨h1, h2⟩ := (Bool.and_eq_true _ _).mp hgap
        have h1' : r1.2 < x := of_decide_eq_true h1
        have h2' : y < r2.1 := of_decide_eq_true h2
        obtain ⟨r, hr, hzl, hzr⟩ := hcov
        rcases List.mem_cons.mp hr with rfl | hr'
        · rintro ⟨ha, -⟩
          omega
        · have h21 : r2.1 ≤ r.1 := by
            rcases List.mem_cons.mp hr' with rfl | hr''
            · exact le_refl _
            · have hlt := (List.pairwise_cons.mp (List.pairwise_cons.mp hp).2).1 r hr''
              have hwf2 := hwf r2 (by simp)
              omega
          rintro ⟨-, hb⟩
          omega
      · obtain ⟨r, hr, hzl, hzr⟩ := hcov
        rcases List.mem_cons.mp hr with rfl | hr'
        · obtain ⟨q, hq, hqx⟩ := insideGap_left (r2 :: rest2) x y hrec
          have hr1q : r.2 < q.1 := (List.pairwise_cons.mp hp).1 q hq
          have hqwf := hwf q (List.mem_cons_of_mem _ hq)
          rintro ⟨ha, -⟩
          omega
        · exact ih x y z hrec hchain.tail
            (fun r' hr2 => hwf r' (List.mem_cons_of_mem r1 hr2)) ⟨r, hr', hzl, hzr⟩

theorem build_filter_ranges_eq (x : Int) (xs : List Int) (k : Nat) :
    build_filter_ranges (x :: xs) k
      = buildRanges (x :: xs) 0 x
          (pickSplits (k - 1)
            ((gapList (x :: xs) 0).filter (fun g => decide (g.2 ≤ REPR_MAX)))) := rfl

theorem bins_flatten : ∀ (b : Nat) (vs : List Int), (bins_go vs b).flatten = vs := by
  intro b
  induction b with
  | zero => intro vs; simp [bins_go]
  | succ b ih =>
    intro vs
    simp only [bins_go, List.flatten_cons, ih]
    exact List.take_append_drop _ vs

theorem bins_sublist : ∀ (b : Nat) (vs : List Int), ∀ g ∈ bins_go vs b, g.Sublist vs := by
  intro b
  induction b with
  | zero =>
    intro vs g hg
    have : g = vs := by simpa [bins_go] using hg
    subst this
    exact List.Sublist.refl g
  | succ b ih =>
    intro vs g hg
    simp only [bins_go, List.mem_cons] at hg
    rcases hg with rfl | hg'
    · exact List.take_sublist _ vs
    · exact (ih _ g hg').trans (List.drop_sublist _ vs)

theorem hist_cover {D : List Int} (hD : D.Pairwise (· < ·)) (B : Nat) :
    ∀ z ∈ D, ∃ r ∈ hist_bins D B, r.1 ≤ z ∧ z ≤ r.2 := by
  intro z hz
  have hz' : z ∈ (bins_go D (B - 1)).flatten := by
    rw [bins_flatten]
    exact hz
  obtain ⟨g, hg, hzg⟩ := List.mem_join.mp hz'
  have hgs : g.Sublist D := bins_sublist (B - 1) D g hg
  have hgsorted : g.Pairwise (· ≤ ·) :=
    List.Pairwise.sublist hgs (hD.imp (fun h => le_of_lt h))
  match g, hzg with
  | x :: xs, hzg =>
    refine ⟨(x, List.getLastD xs x), ?_, ?_, ?_⟩
    · exact List.mem_filterMap.mpr ⟨x :: xs, hg, rfl⟩
    · have := sorted_head_le hgsorted z hzg
      simpa using this
    · have h3 := sorted_le_last hgsorted z hzg
      rw [List.getLastD_cons] at h3
      exact h3

theorem value_scan_empty (rows : List (Option Int)) (c : PredicateCondition) (x : Int)
    (h : ∀ y : Int, (some y) ∈ rows → cmpMatches c y x = false) :
    value_scan rows c x = [] := by
  refine idxWhere_false rows 0 ?_
  intro cell hcell
  cases cell with
  | none => rfl
  | some y => exact h y hcell

theorem between_scan_empty (rows : List (Option Int)) (lo hi : Int)
    (h : ∀ y : Int, (some y) ∈ rows → ¬(lo ≤ y ∧ y ≤ hi)) :
    between_scan_generic rows lo hi = [] := by
  refine idxWhere_false rows 0 ?_
  intro cell hcell
  cases cell with
  | none => rfl
  | some y =>
    have hy := h y hcell
    by_cases h1 : lo ≤ y
    · have h2 : ¬(y ≤ hi) := fun hh => hy ⟨h1, hh⟩
      simp [h2]
    · simp [h1]

theorem minmax_prune_sound (rows : List (Option Int)) (D : List Int)
    (hD : D.Pairwise (· < ·))
    (hmem : ∀ y : Int, (some y) ∈ rows → y ∈ D)
    (c : PredicateCondition) (v : Option Int) (v2 : Option (Option Int))
    (hdnc : minmax_does_not_contain (minmax_from_dict D) c v v2 = true) :
    scan_chunk (Segment.valueSeg rows) c v v2 = [] := by
  have hDle : D.Pairwise (· ≤ ·) := hD.imp (fun h => le_of_lt h)
  have hbnd : ∀ y ∈ D, D.headD 0 ≤ y ∧ y ≤ D.getLastD 0 :=
    fun y hy => ⟨sorted_head_le hDle y hy, sorted_le_last hDle y hy⟩
  match v with
  | none => simp [minmax_does_not_contain] at hdnc
  | some x =>
    by_cases hv2 : v2 = some none
    · subst hv2
      simp [minmax_does_not_contain] at hdnc
    · have hg : (v2 == some none) = false := by simpa using hv2
      cases c with
      | equals =>
        have hx : x < D.headD 0 ∨ D.getLastD 0 < x := by
          simpa [minmax_does_not_contain, hg, minmax_from_dict] using hdnc
        refine value_scan_empty rows _ x ?_
        intro y hy
        obtain ⟨h1, h2⟩ := hbnd y (hmem y hy)
        show (y == x) = false
        have : ¬(y = x) := by omega
        simpa using this
      | notEquals =>
        have hx : D.headD 0 = D.getLastD 0 ∧ D.headD 0 = x := by
          simpa [minmax_does_not_contain, hg, minmax_from_dict] using hdnc
        refine value_scan_empty rows _ x ?_
        intro y hy
        obtain ⟨h1, h2⟩ := hbnd y (hmem y hy)
        show (!(y == x)) = false
        have : y = x := by omega
        simp [this]
      | lessThan =>
        have hx : x ≤ D.headD 0 := by
          simpa [minmax_does_not_contain, hg, minmax_from_dict] using hdnc
        refine value_scan_empty rows _ x ?_
        intro y hy
        obtain ⟨h1, -⟩ := hbnd y (hmem y hy)
        show decide (y < x) = false
        exact decide_eq_false (by omega)
      | lessThanEquals =>
        have hx : x < D.headD 0 := by
          simpa [minmax_does_not_contain, hg, minmax_from_dict] using hdnc
        refine value_scan_empty rows _ x ?_
        intro y hy
        obtain ⟨h1, -⟩ := hbnd y (hmem y hy)
        show decide (y ≤ x) = false
        exact decide_eq_false (by omega)
      | greaterThan =>
        have hx : D.getLastD 0 ≤ x := by
          simpa [minmax_does_not_contain, hg, minmax_from_dict] using hdnc
        refine value_scan_empty rows _ x ?_
        intro y hy
        obtain ⟨-, h2⟩ := hbnd y (hmem y hy)
        show decide (x < y) = false
        exact decide_eq_false (by omega)
      | greaterThanEquals =>
        have hx : D.getLastD 0 < x := by
          simpa [minmax_does_not_contain, hg, minmax_from_dict] using hdnc
        refine value_scan_empty rows _ x ?_
        intro y hy
        obtain ⟨-, h2⟩ := hbnd y (hmem y hy)
        show decide (x ≤ y) = false
        exact decide_eq_false (by omega)
      | between =>
        match v2 with
        | none => simp [minmax_does_not_contain] at hdnc
        | some none => exact absurd rfl hv2
        | some (some w) =>
          have hx : w < D.headD 0 ∨ D.getLastD 0 < x := by
            simpa [minmax_does_not_contain, minmax_from_dict] using hdnc
          refine between_scan_empty rows x w ?_
          intro y hy
          obtain ⟨h1, h2⟩ := hbnd y (hmem y hy)
          rintro ⟨ha, hb⟩
          omega
      | isNull => simp [minmax_does_not_contain, hg] at hdnc
      | isNotNull => simp [minmax_does_not_contain, hg] at hdnc
      | likeCond => simp [minmax_does_not_contain, hg] at hdnc
      | notLikeCond => simp [minmax_does_not_contain, hg] at hdnc
      | inCond => simp [minmax_does_not_contain, hg] at hdnc
      | notInCond => simp [minmax_does_not_contain, hg] at hdnc

theorem bfr_invariants (D : List Int) (hD : D.Pairwise (· < ·)) (hne : D ≠ []) (k : Nat) :
    (∀ z ∈ D, ∃ r ∈ build_filter_ranges D k, r.1 ≤ z ∧ z ≤ r.2) ∧
      (∀ r ∈ build_filter_ranges D k, r.1 ≤ r.2) ∧
      List.Chain' (fun r t => r.2 < t.1) (build_filter_ranges D k) ∧
      ((build_filter_ranges D k).headD (0, 0)).1 = D.headD 0 ∧
      ((build_filter_ranges D k).getLastD (0, 0)).2 = D.getLastD 0 := by
  cases D with
  | nil => exact absurd rfl hne
  | cons x xs =>
    rw [build_filter_ranges_eq]
    have hchain : List.Chain' (· < ·) (x :: xs) := List.chain'_iff_pairwise.mpr hD
    have hhead : (x : Int) ≤ (x :: xs).headD 0 := by simp
    refine ⟨buildRanges_cover _ 0 x _ hchain hhead,
      (buildRanges_wf _ 0 x _ hchain hhead).1,
      (buildRanges_wf _ 0 x _ hchain hhead).2, ?_,
      buildRanges_last _ 0 x _ (by simp)⟩
    obtain ⟨e, tl, heq, -⟩ := buildRanges_head (x :: xs) 0 x _ (by simp)
    rw [heq]
    simp

theorem range_prune_sound (rows : List (Option Int)) (D : List Int) (k : Nat)
    (hD : D.Pairwise (· < ·)) (hne : D ≠ [])
    (hmem : ∀ y : Int, (some y) ∈ rows → y ∈ D)
    (c : PredicateCondition) (v : Option Int) (v2 : Option (Option Int))
    (hdnc : range_does_not_contain (build_filter_ranges D k) c v v2 = true) :
    scan_chunk (Segment.valueSeg rows) c v v2 = [] := by
  have hDle : D.Pairwise (· ≤ ·) := hD.imp (fun h => le_of_lt h)
  obtain ⟨hcov, hwf, hchain, hhead, hlast⟩ := bfr_invariants D hD hne k
  match v with
  | none => simp [range_does_not_contain] at hdnc
  | some x =>
    by_cases hv2 : v2 = some none
    · subst hv2
      simp [range_does_not_contain] at hdnc
    · have hg : (v2 == some none) = false := by simpa using hv2
      cases c with
      | equals =>
        have hall : ∀ r ∈ build_filter_ranges D k, x < r.1 ∨ r.2 < x := by
          have h := hdnc
          simp only [range_does_not_contain, hg, Bool.false_eq_true, if_false] at h
          intro r hr
          have := List.all_eq_true.mp h r hr
          simpa using this
        refine value_scan_empty rows _ x ?_
        intro y hy
        obtain ⟨r, hr, h1, h2⟩ := hcov y (hmem y hy)
        have := hall r hr
        show (y == x) = false
        have hne' : ¬(y = x) := by omega
        simpa using hne'
      | lessThan =>
        have hx : x ≤ D.headD 0 := by
          have h := hdnc
          simp only [range_does_not_contain, hg, Bool.false_eq_true, if_false] at h
          rw [hhead] at h
          simpa using h
        refine value_scan_empty rows _ x ?_
        intro y hy
        have h1 := sorted_head_le hDle y (hmem y hy)
        show decide (y < x) = false
        exact decide_eq_false (by omega)
      | lessThanEquals =>
        have hx : x < D.headD 0 := by
          have h := hdnc
          simp only [range_does_not_contain, hg, Bool.false_eq_true, if_false] at h
          rw [hhead] at h
          simpa using h
        refine value_scan_empty rows _ x ?_
        intro y hy
        have h1 := sorted_head_le hDle y (hmem y hy)
        show decide (y ≤ x) = false
        exact decide_eq_false (by omega)
      | greaterThan =>
        have hx : D.getLastD 0 ≤ x := by
          have h := hdnc
          simp only [range_does_not_contain, hg, Bool.false_eq_true, if_false] at h
          rw [hlast] at h
          simpa using h
        refine value_scan_empty rows _ x ?_
        intro y hy
        have h2 := sorted_le_last hDle y (hmem y hy)
        show decide (x < y) = false
        exact decide_eq_false (by omega)
      | greaterThanEquals =>
        have hx : D.getLastD 0 < x := by
          have h := hdnc
          simp only [range_does_not_contain, hg, Bool.false_eq_true, if_false] at h
          rw [hlast] at h
          simpa using h
        refine value_scan_empty rows _ x ?_
        intro y hy
        have h2 := sorted_le_last hDle y (hmem y hy)
        show decide (x ≤ y) = false
        exact decide_eq_false (by omega)
      | between =>
        match v2 with
        | none => simp [range_does_not_contain] at hdnc
        | some none => exact absurd rfl hv2
        | some (some w) =>
          have h : (w < ((build_filter_ranges D k).headD (0, 0)).1
              ∨ ((build_filter_ranges D k).getLastD (0, 0)).2 < x)
              ∨ insideGap x w (build_filter_ranges D k) = true := by
            simpa [range_does_not_contain] using hdnc
          refine between_scan_empty rows x w ?_
          intro y hy
          rcases h with (h1 | h2) | h3
          · have hw : w < D.headD 0 := by rw [← hhead]; exact h1
            have hb := sorted_head_le hDle y (hmem y hy)
            rintro ⟨-, hbw⟩
            omega
          · have hx : D.getLastD 0 < x := by rw [← hlast]; exact h2
            have hb := sorted_le_last hDle y (hmem y hy)
            rintro ⟨hax, -⟩
            omega
          · exact insideGap_excludes (build_filter_ranges D k) x w y h3 hchain hwf
              (hcov y (hmem y hy))
      | notEquals => simp [range_does_not_contain, hg] at hdnc
      | isNull => simp [range_does_not_contain, hg] at hdnc
      | isNotNull => simp [range_does_not_contain, hg] at hdnc
      | likeCond => simp [range_does_not_contain, hg] at hdnc
      | notLikeCond => simp [range_does_not_contain, hg] at hdnc
      | inCond => simp [range_does_not_contain, hg] at hdnc
      | notInCond => simp [range_does_not_contain, hg] at hdnc

theorem hist_prune_sound (rows : List (Option Int)) (D : List Int) (B : Nat)
    (hD : D.Pairwise (· < ·))
    (hmem : ∀ y : Int, (some y) ∈ rows → y ∈ D)
    (c : PredicateCondition) (v : Option Int) (v2 : Option (Option Int))
    (hdnc : hist_does_not_contain (hist_bins D B) c v v2 = true) :
    scan_chunk (Segment.valueSeg rows) c v v2 = [] := by
  match v with
  | none => simp [hist_does_not_contain] at hdnc
  | some x =>
    by_cases hv2 : v2 = some none
    · subst hv2
      simp [hist_does_not_contain] at hdnc
    · have hg : (v2 == some none) = false := by simpa using hv2
      cases c with
      | equals =>
        have hall : ∀ r ∈ hist_bins D B, x < r.1 ∨ r.2 < x := by
          have h := hdnc
          simp only [hist_does_not_contain, hg, Bool.false_eq_true, if_false] at h
          intro r hr
          have := List.all_eq_true.mp h r hr
          simpa using this
        refine value_scan_empty rows _ x ?_
        intro y hy
        obtain ⟨r, hr, h1, h2⟩ := hist_cover hD B y (hmem y hy)
        have := hall r hr
        show (y == x) = false
        have hne' : ¬(y = x) := by omega
        simpa using hne'
      | notEquals => simp [hist_does_not_contain, hg] at hdnc
      | lessThan => simp [hist_does_not_contain, hg] at hdnc
      | lessThanEquals => simp [hist_does_not_contain, hg] at hdnc
      | greaterThan => simp [hist_does_not_contain, hg] at hdnc
      | greaterThanEquals => simp [hist_does_not_contain, hg] at hdnc
      | between => simp [hist_does_not_contain, hg] at hdnc
      | isNull => simp [hist_does_not_contain, hg] at hdnc
      | isNotNull => simp [hist_does_not_contain, hg] at hdnc
      | likeCond => simp [hist_does_not_contain, hg] at hdnc
      | notLikeCond => simp [hist_does_not_contain, hg] at hdnc
      | inCond => simp [hist_does_not_contain, hg] at hdnc
      | notInCond => simp [hist_does_not_contain, hg] at hdnc

/-- C1: pruning soundness.  For every segment (rows over the sorted distinct
dictionary D), every predicate condition and every literal (and optional
second literal), if the min-max filter, the range filter (any max_ranges) or
the equal-distinct-count histogram (any bin count) built from the segment
reports does_not_contain, then the true scan of the segment returns an empty
position list: a statistic never prunes a block containing a matching
non-null row. -/
theorem C1_pruning_soundness (rows : List (Option Int)) (D : List Int) (k B : Nat)
    (hD : D.Pairwise (· < ·)) (hne : D ≠ [])
    (hmem : rows.all (fun cell => match cell with
      | none => true
      | some y => D.contains y) = true)
    (c : PredicateCondition) (v : Option Int) (v2 : Option (Option Int)) :
    (minmax_does_not_contain (minmax_from_dict D) c v v2 = true →
        scan_chunk (Segment.valueSeg rows) c v v2 = []) ∧
      (range_does_not_contain (build_filter_ranges D k) c v v2 = true →
        scan_chunk (Segment.valueSeg rows) c v v2 = []) ∧
      (hist_does_not_contain (hist_bins D B) c v v2 = true →
        scan_chunk (Segment.valueSeg rows) c v v2 = []) := by
  have hmem' : ∀ y : Int, (some y) ∈ rows → y ∈ D := by
    intro y hy
    have := List.all_eq_true.mp hmem _ hy
    simpa using this
  exact ⟨minmax_prune_sound rows D hD hmem' c v v2,
    range_prune_sound rows D k hD hne hmem' c v v2,
    hist_prune_sound rows D B hD hmem' c v v2⟩

/-- Witness for C1: the min-max filter over dictionary [10, 20] prunes
Equals 25, and the scan of the segment [10, null, 20] indeed returns
nothing. -/
theorem C1_pruning_soundness_witness :
    scan_chunk (Segment.valueSeg [some 10, none, some 20]) PredicateCondition.equals
      (some 25) none = [] :=
  (C1_pruning_soundness [some 10, none, some 20] [10, 20] 4 2 (by decide) (by decide)
    (by decide) PredicateCondition.equals (some 25) none).1 (by decide)

/-- C7: build_filter fails with InvalidArgument when max_ranges < 1, in
every build; it fails with InvalidArgument on input not sorted ascending
with the sortedness check active only in debug builds — a release build
accepts any input once max_ranges ≥ 1. -/
theorem C7_build_filter_errors (debug : Bool) (values : List Int) (maxRanges : Nat) :
    (maxRanges = 0 →
        build_filter debug values maxRanges = Except.error "InvalidArgument") ∧
      (isSortedAsc values = false → maxRanges ≠ 0 →
        build_filter true values maxRanges = Except.error "InvalidArgument") ∧
      (maxRanges ≠ 0 →
        build_filter false values maxRanges
          = Except.ok (build_filter_ranges values maxRanges)) := by
  refine ⟨?_, ?_, ?_⟩
  · intro h
    subst h
    rfl
  · intro hs hm
    unfold build_filter
    rw [if_neg (by omega), if_pos]
    simp [hs]
  · intro hm
    unfold build_filter
    rw [if_neg (by omega), if_neg (by simp)]

/-- Witness for C7: max_ranges = 0 is rejected, unsorted input is rejected
in a debug build and accepted in a release build. -/
theorem C7_build_filter_errors_witness :
    build_filter true [3, 1] 0 = Except.error "InvalidArgument" ∧
      build_filter true [3, 1] 5 = Except.error "InvalidArgument" ∧
      build_filter false [3, 1] 5 = Except.ok (build_filter_ranges [3, 1] 5) :=
  ⟨(C7_build_filter_errors true [3, 1] 0).1 rfl,
   (C7_build_filter_errors true [3, 1] 5).2.1 (by decide) (by decide),
   (C7_build_filter_errors false [3, 1] 5).2.2 (by decide)⟩

theorem gapList_map_fst : ∀ (L : List Int) (i : Nat),
    (gapList L i).map Prod.fst = List.range' i (L.length - 1) := by
  intro L
  induction L with
  | nil => intro i; rfl
  | cons x xs ih =>
    intro i
    cases xs with
    | nil => rfl
    | cons y rest =>
      rw [gapList]
      simp only [List.map_cons, ih (i + 1)]
      have hlen : (x :: y :: rest).length - 1 = ((y :: rest).length - 1) + 1 := by simp
      rw [hlen, List.range'_succ]

theorem argmaxGap_mem : ∀ (gs : List (Nat × Int)) (m : Nat × Int),
    argmaxGap gs = some m → m ∈ gs := by
  intro gs
  induction gs with
  | nil => intro m h; simp [argmaxGap] at h
  | cons g tl ih =>
    intro m h
    rw [argmaxGap] at h
    cases htl : argmaxGap tl with
    | none =>
      rw [htl] at h
      have hgm : g = m := by simpa using h
      exact hgm ▸ List.mem_cons_self g tl
    | some q =>
      rw [htl] at h
      have h2 : (if decide (g.2 < q.2) = true then some q else some g) = some m := h
      by_cases hlt : (decide (g.2 < q.2)) = true
      · rw [if_pos hlt] at h2
        have hqm : q = m := by simpa using h2
        exact hqm ▸ List.mem_cons_of_mem g (ih q htl)
      · rw [if_neg hlt] at h2
        have hgm : g = m := by simpa using h2
        exact hgm ▸ List.mem_cons_self g tl

theorem argmaxGap_none : ∀ (gs : List (Nat × Int)), argmaxGap gs = none → gs = [] := by
  intro gs h
  cases gs with
  | nil => rfl
  | cons g tl =>
    rw [argmaxGap] at h
    cases htl : argmaxGap tl with
    | none =>
      rw [htl] at h
      exact Option.noConfusion h
    | some q =>
      rw [htl] at h
      have h2 : (if decide (g.2 < q.2) = true then some q else some g) = none := h
      by_cases hlt : (decide (g.2 < q.2)) = true
      · rw [if_pos hlt] at h2
        exact Option.noConfusion h2
      · rw [if_neg hlt] at h2
        exact Option.noConfusion h2

theorem filter_out_one : ∀ (gs : List (Nat × Int)) (m : Nat × Int),
    (gs.map Prod.fst).Nodup → m ∈ gs →
    (gs.filter (fun g => !(g.1 == m.1))).length + 1 = gs.length := by
  intro gs
  induction gs with
  | nil => intro m _ hm; simp at hm
  | cons g tl ih =>
    intro m hnd hm
    have hnd2 : (g.1 :: tl.map Prod.fst).Nodup := by simpa using hnd
    have hg1 : g.1 ∉ tl.map Prod.fst := (List.nodup_cons.mp hnd2).1
    have hnd' : (tl.map Prod.fst).Nodup := (List.nodup_cons.mp hnd2).2
    rcases List.mem_cons.mp hm with rfl | hm'
    · have hkeep : ∀ h ∈ tl, (fun g => !(g.1 == m.1)) h = true := by
        intro h hh
        have hmem : h.1 ∈ tl.map Prod.fst := List.mem_map.mpr ⟨h, hh, rfl⟩
        have hne : ¬(h.1 = m.1) := fun he => hg1 (he ▸ hmem)
        simpa using hne
      rw [List.filter_cons, if_neg (by simp), List.filter_eq_self.mpr hkeep]
      simp
    · have hm1 : m.1 ∈ tl.map Prod.fst := List.mem_map.mpr ⟨m, hm', rfl⟩
      have hne : ¬(g.1 = m.1) := fun he => hg1 (he ▸ hm1)
      have hgne : (!(g.1 == m.1)) = true := by simpa using hne
      rw [List.filter_cons, if_pos (by simpa using hgne)]
      have hrec := ih m hnd' hm'
      simp only [List.length_cons]
      omega

theorem pickSplits_sub : ∀ (k : Nat) (gs : List (Nat × Int)),
    ∀ j ∈ pickSplits k gs, j ∈ gs.map Prod.fst := by
  intro k
  induction k with
  | zero => intro gs j hj; simp [pickSplits] at hj
  | succ k ih =>
    intro gs j hj
    rw [pickSplits] at hj
    cases hmax : argmaxGap gs with
    | none => rw [hmax] at hj; simp at hj
    | some m =>
      rw [hmax] at hj
      rcases List.mem_cons.mp hj with rfl | hj'
      · exact List.mem_map.mpr ⟨m, argmaxGap_mem gs m hmax, rfl⟩
      · obtain ⟨g, hg, rfl⟩ := List.mem_map.mp (ih _ j hj')
        exact List.mem_map.mpr ⟨g, List.mem_of_mem_filter hg, rfl⟩

theorem pickSplits_nodup : ∀ (k : Nat) (gs : List (Nat × Int)), (pickSplits k gs).Nodup := by
  intro k
  induction k with
  | zero => intro gs; simp [pickSplits]
  | succ k ih =>
    intro gs
    rw [pickSplits]
    cases hmax : argmaxGap gs with
    | none => simp
    | some m =>
      refine List.nodup_cons.mpr ⟨?_, ih _⟩
      intro hmem
      obtain ⟨g, hg, hfst⟩ := List.mem_map.mp (pickSplits_sub k _ m.1 hmem)
      have hcond := List.of_mem_filter hg
      simp [hfst] at hcond

theorem pickSplits_length : ∀ (k : Nat) (gs : List (Nat × Int)),
    (gs.map Prod.fst).Nodup → (pickSplits k gs).length = min k gs.length := by
  intro k
  induction k with
  | zero => intro gs _; simp [pickSplits]
  | succ k ih =>
    intro gs hnd
    rw [pickSplits]
    cases hmax : argmaxGap gs with
    | none =>
      have hgs : gs = [] := argmaxGap_none gs hmax
      subst hgs
      simp
    | some m =>
      have hm := argmaxGap_mem gs m hmax
      have hflt := filter_out_one gs m hnd hm
      have hndf : ((gs.filter (fun g => !(g.1 == m.1))).map Prod.fst).Nodup :=
        List.Nodup.sublist (List.Sublist.map Prod.fst (List.filter_sublist gs)) hnd
      have hpos : 1 ≤ gs.length := List.length_pos.mpr (List.ne_nil_of_mem hm)
      simp only [List.length_cons, ih _ hndf]
      omega

theorem buildRanges_count : ∀ (L : List Int) (i : Nat) (s : Int) (S : List Nat), L ≠ [] →
    (buildRanges L i s S).length
      = (List.range' i (L.length - 1)).countP (fun j => S.contains j) + 1 := by
  intro L
  induction L with
  | nil => intro i s S h; exact absurd rfl h
  | cons x xs ih =>
    intro i s S _
    cases xs with
    | nil => simp [buildRanges]
    | cons y rest =>
      rw [buildRanges]
      have hlen : (x :: y :: rest).length - 1 = ((y :: rest).length - 1) + 1 := by simp
      rw [hlen, List.range'_succ, List.countP_cons]
      have hrec := ih (i + 1) y S (by simp)
      have hrec2 := ih (i + 1) s S (by simp)
      by_cases hsp : S.contains i = true
      · rw [if_pos hsp]
        simp only [List.length_cons, hrec, hsp, if_true]
      · rw [if_neg hsp]
        have hspf : S.contains i = false := by simpa using hsp
        simp only [hrec2, hspf, Bool.false_eq_true, if_false]

theorem countP_or_disjoint {α : Type} (p q : α → Bool) :
    ∀ (l : List α), (∀ a ∈ l, ¬(p a = true ∧ q a = true)) →
    l.countP (fun a => p a || q a) = l.countP p + l.countP q := by
  intro l
  induction l with
  | nil => intro _; simp
  | cons a tl ih =>
    intro h
    have htl := ih (fun b hb => h b (List.mem_cons_of_mem a hb))
    have ha := h a (List.mem_cons_self a tl)
    simp only [List.countP_cons, htl]
    by_cases hp : p a = true
    · have hq : q a = false := by
        rcases Bool.eq_false_or_eq_true (q a) with hq | hq
        · exact absurd ⟨hp, hq⟩ ha
        · exact hq
      simp [hp, hq]
      omega
    · have hp' : p a = false := by simpa using hp
      by_cases hq : q a = true
      · simp [hp', hq]
        omega
      · have hq' : q a = false := by simpa using hq
        simp [hp', hq']

theorem countP_beq_one : ∀ (R : List Nat), R.Nodup → ∀ a ∈ R,
    R.countP (fun j => j == a) = 1 := by
  intro R
  induction R with
  | nil => intro _ a ha; simp at ha
  | cons r tl ih =>
    intro hnd a ha
    obtain ⟨hr, hnd'⟩ := List.nodup_cons.mp hnd
    rcases List.mem_cons.mp ha with rfl | ha'
    · have hz : tl.countP (fun j => j == a) = 0 := by
        refine List.countP_eq_zero.mpr ?_
        intro b hb hba
        have : b = a := by simpa using hba
        exact hr (this ▸ hb)
      simp [List.countP_cons, hz]
    · have hra : ¬(r = a) := fun he => hr (he ▸ ha')
      simp [List.countP_cons, ih hnd' a ha', hra]

theorem countP_contains_eq_length : ∀ (S : List Nat), S.Nodup →
    ∀ (R : List Nat), R.Nodup → (∀ j ∈ S, j ∈ R) →
    R.countP (fun j => S.contains j) = S.length := by
  intro S
  induction S with
  | nil =>
    intro _ R _ _
    refine List.countP_eq_zero.mpr ?_
    intro a _ h
    simp at h
  | cons a S' ih =>
    intro hnd R hndR hsub
    obtain ⟨haS, hnd'⟩ := List.nodup_cons.mp hnd
    have ha : a ∈ R := hsub a (by simp)
    have hS' : ∀ j ∈ S', j ∈ R := fun j hj => hsub j (by simp [hj])
    have hand : ∀ j ∈ R, ¬((j == a) = true ∧ (S'.contains j) = true) := by
      rintro j hj ⟨h1, h2⟩
      have hja : j = a := by simpa using h1
      subst hja
      exact haS (by simpa using h2)
    have hcongr : R.countP (fun j => (a :: S').contains j)
        = R.countP (fun j => (j == a) || S'.contains j) := by
      refine List.countP_congr ?_
      intro j _
      simp [List.contains_cons]
    rw [hcongr, countP_or_disjoint _ _ R hand, countP_beq_one R hndR a ha,
      ih hnd' R hndR hS']
    simp only [List.length_cons]
    omega

/-- Number of representable gaps between consecutive dictionary values. -/
def reprGapCount (D : List Int) : Nat :=
  ((gapList D 0).filter (fun g => decide (g.2 ≤ REPR_MAX))).length

theorem build_filter_ranges_length (D : List Int) (hne : D ≠ []) (k : Nat) :
    (build_filter_ranges D k).length = min (k - 1) (reprGapCount D) + 1 := by
  cases D with
  | nil => exact absurd rfl hne
  | cons x xs =>
    rw [build_filter_ranges_eq, buildRanges_count _ 0 x _ (by simp)]
    have hmapR : (gapList (x :: xs) 0).map Prod.fst
        = List.range' 0 ((x :: xs).length - 1) := gapList_map_fst _ 0
    have hndR : (List.range' 0 ((x :: xs).length - 1)).Nodup :=
      List.nodup_range' _ _ _ (by omega)
    have hndG : ((gapList (x :: xs) 0).map Prod.fst).Nodup := by
      rw [hmapR]
      exact hndR
    have hndF : (((gapList (x :: xs) 0).filter
        (fun g => decide (g.2 ≤ REPR_MAX))).map Prod.fst).Nodup :=
      List.Nodup.sublist (List.Sublist.map Prod.fst (List.filter_sublist _)) hndG
    have hsub : ∀ j ∈ pickSplits (k - 1)
        ((gapList (x :: xs) 0).filter (fun g => decide (g.2 ≤ REPR_MAX))),
        j ∈ List.range' 0 ((x :: xs).length - 1) := by
      intro j hj
      obtain ⟨g, hg, rfl⟩ := List.mem_map.mp (pickSplits_sub _ _ j hj)
      rw [← hmapR]
      exact List.mem_map.mpr ⟨g, List.mem_of_mem_filter hg, rfl⟩
    rw [countP_contains_eq_length _ (pickSplits_nodup _ _) _ hndR hsub,
      pickSplits_length _ _ hndF]
    rfl

/-- The int32 input of RangeFilterTest.ValueRangeTooLarge: values near the
type's lowest and max, with a middle gap exceeding the representable
range. -/
def c6Values : List Int := [-1932735283, -1717986918, 1717986918, 1932735283]

/-- C6 (amended): range-filter construction computes consecutive gaps in
wide arithmetic and drops every gap exceeding the element type's
representable range, producing min(max_ranges − 1, representable-gap count)
+ 1 ranges — fewer ranges when fewer representable gaps exist, at minimum
one.  For int32 input values near the type's lowest and max with
max_ranges = 5, the unrepresentable middle gap is dropped and a three-range
filter results (not a single-range filter), which cannot prune Equals 0
inside the huge gap but still prunes values outside the overall bounds. -/
theorem C6_unrepresentable_gaps (D : List Int) (hne : D ≠ []) (k : Nat) :
    ((build_filter_ranges D k).length = min (k - 1) (reprGapCount D) + 1) ∧
      (reprGapCount D < k - 1 →
        (build_filter_ranges D k).length = reprGapCount D + 1) ∧
      1 ≤ (build_filter_ranges D k).length ∧
      build_filter_ranges c6Values 5
        = [(-1932735283, -1932735283), (-1717986918, 1717986918),
            (1932735283, 1932735283)] ∧
      range_does_not_contain (build_filter_ranges c6Values 5)
          PredicateCondition.equals (some 0) none = false ∧
      range_does_not_contain (build_filter_ranges c6Values 5)
          PredicateCondition.equals (some (-2040109465)) none = true := by
  have hlen := build_filter_ranges_length D hne k
  refine ⟨hlen, ?_, by omega, by decide, by decide, by decide⟩
  intro hlt
  rw [hlen]
  omega

/-- C6 counterexample: for the int32 near-extreme input with max_ranges = 5
the builder produces three ranges, not the single range the claim
states. -/
theorem C6_not_single_range_counterexample :
    (build_filter_ranges c6Values 5).length = 3
      ∧ ¬((build_filter_ranges c6Values 5).length = 1) := by
  constructor <;> decide

/-- Witness for C6 at the concrete near-extreme input. -/
theorem C6_unrepresentable_gaps_witness :
    (build_filter_ranges c6Values 5).length = min (5 - 1) (reprGapCount c6Values) + 1 :=
  (C6_unrepresentable_gaps c6Values (by decide) 5).1

theorem beq_int_decide (x v : Int) : (x == v) = decide (x = v) := by
  by_cases h : x = v <;> simp [h]

theorem idxWhere_window {α : Type} (q : α → Bool) :
    ∀ (l : List α) (k a b : Nat), a ≤ b → b ≤ l.length →
      (∀ i (hi : i < l.length), q (l.get ⟨i, hi⟩) = decide (a ≤ i ∧ i < b)) →
      idxWhere q l k = List.range' (k + a) (b - a) := by
  intro l
  induction l with
  | nil =>
    intro k a b hab hb _
    have hb0 : b = 0 := by simpa using hb
    have ha0 : a = 0 := by omega
    subst hb0
    subst ha0
    rfl
  | cons x xs ih =>
    intro k a b hab hb hwin
    have hlen : xs.length + 1 = (x :: xs).length := by simp
    rcases Nat.eq_zero_or_pos a with ha0 | hapos
    · subst ha0
      rcases Nat.eq_zero_or_pos b with hb0 | hbpos
      · subst hb0
        have hall : ∀ c ∈ x :: xs, q c = false := by
          intro c hc
          obtain ⟨⟨i, hi⟩, rfl⟩ := List.mem_iff_get.mp hc
          rw [hwin i hi]
          simp
        rw [idxWhere_false _ k hall]
        rfl
      · obtain ⟨b', rfl⟩ : ∃ b', b = b' + 1 := ⟨b - 1, by omega⟩
        have hx0 : q x = true := by
          have hh : q x = decide ((0 : Nat) ≤ 0 ∧ 0 < b' + 1) := hwin 0 (by simp)
          rw [hh]
          exact decide_eq_true ⟨le_refl 0, by omega⟩
        have hwin' : ∀ i (hi : i < xs.length),
            q (xs.get ⟨i, hi⟩) = decide (0 ≤ i ∧ i < b') := by
          intro i hi
          have hh : q (xs.get ⟨i, hi⟩) = decide (0 ≤ i + 1 ∧ i + 1 < b' + 1) :=
            hwin (i + 1) (by simp; omega)
          rw [hh]
          exact decide_eq_decide.mpr (by omega)
        have hrec := ih (k + 1) 0 b' (by omega) (by simp at hb; omega) hwin'
        simp only [idxWhere, hx0, if_true, hrec, Nat.add_zero, Nat.sub_zero,
          Nat.add_sub_cancel]
        rw [List.range'_succ]
    · obtain ⟨a', rfl⟩ : ∃ a', a = a' + 1 := ⟨a - 1, by omega⟩
      obtain ⟨b', rfl⟩ : ∃ b', b = b' + 1 := ⟨b - 1, by omega⟩
      have hx0 : q x = false := by
        have hh : q x = decide (a' + 1 ≤ 0 ∧ 0 < b' + 1) := hwin 0 (by simp)
        rw [hh]
        exact decide_eq_false (by omega)
      have hwin' : ∀ i (hi : i < xs.length),
          q (xs.get ⟨i, hi⟩) = decide (a' ≤ i ∧ i < b') := by
        intro i hi
        have hh : q (xs.get ⟨i, hi⟩) = decide (a' + 1 ≤ i + 1 ∧ i + 1 < b' + 1) :=
          hwin (i + 1) (by simp; omega)
        rw [hh]
        exact decide_eq_decide.mpr (by omega)
      have hrec := ih (k + 1) a' b' (by omega) (by simp at hb; omega) hwin'
      simp only [idxWhere, hx0, Bool.false_eq_true, if_false, hrec]
      have e1 : k + 1 + a' = k + (a' + 1) := by omega
      have e2 : b' - a' = b' + 1 - (a' + 1) := by omega
      rw [e1, e2]

theorem idxWhere_cowindow {α : Type} (q : α → Bool) :
    ∀ (l : List α) (k a b : Nat), a ≤ b → b ≤ l.length →
      (∀ i (hi : i < l.length), q (l.get ⟨i, hi⟩) = !(decide (a ≤ i ∧ i < b))) →
      idxWhere q l k = List.range' k a ++ List.range' (k + b) (l.length - b) := by
  intro l
  induction l with
  | nil =>
    intro k a b hab hb _
    have hb0 : b = 0 := by simpa using hb
    have ha0 : a = 0 := by omega
    subst hb0
    subst ha0
    rfl
  | cons x xs ih =>
    intro k a b hab hb hwin
    rcases Nat.eq_zero_or_pos a with ha0 | hapos
    · subst ha0
      rcases Nat.eq_zero_or_pos b with hb0 | hbpos
      · subst hb0
        have hx0 : q x = true := by
          have hh : q x = !(decide ((0 : Nat) ≤ 0 ∧ 0 < 0)) := hwin 0 (by simp)
          rw [hh]
          simp
        have hwin' : ∀ i (hi : i < xs.length),
            q (xs.get ⟨i, hi⟩) = !(decide (0 ≤ i ∧ i < 0)) := by
          intro i hi
          have hh : q (xs.get ⟨i, hi⟩) = !(decide (0 ≤ i + 1 ∧ i + 1 < 0)) :=
            hwin (i + 1) (by simp; omega)
          rw [hh]
          congr 1
          exact decide_eq_decide.mpr (by omega)
        have hrec := ih (k + 1) 0 0 (le_refl 0) (by omega) hwin'
        simp only [idxWhere, hx0, if_true, hrec]
        simp only [List.range'_zero, List.nil_append, Nat.add_zero, Nat.sub_zero,
          List.length_cons]
        rw [List.range'_succ]
      · obtain ⟨b', rfl⟩ : ∃ b', b = b' + 1 := ⟨b - 1, by omega⟩
        have hx0 : q x = false := by
          have hh : q x = !(decide ((0 : Nat) ≤ 0 ∧ 0 < b' + 1)) := hwin 0 (by simp)
          rw [hh]
          have hd : decide ((0 : Nat) ≤ 0 ∧ 0 < b' + 1) = true :=
            decide_eq_true ⟨le_refl 0, by omega⟩
          rw [hd]
          rfl
        have hwin' : ∀ i (hi : i < xs.length),
            q (xs.get ⟨i, hi⟩) = !(decide (0 ≤ i ∧ i < b')) := by
          intro i hi
          have hh : q (xs.get ⟨i, hi⟩) = !(decide (0 ≤ i + 1 ∧ i + 1 < b' + 1)) :=
            hwin (i + 1) (by simp; omega)
          rw [hh]
          congr 1
          exact decide_eq_decide.mpr (by omega)
        have hrec := ih (k + 1) 0 b' (by omega) (by simp at hb; omega) hwin'
        simp only [idxWhere, hx0, Bool.false_eq_true, if_false, hrec]
        simp only [List.range'_zero, List.nil_append, List.length_cons]
        have e1 : k + 1 + b' = k + (b' + 1) := by omega
        have e2 : xs.length - b' = xs.length + 1 - (b' + 1) := by omega
        rw [e1, e2]
    · obtain ⟨a', rfl⟩ : ∃ a', a = a' + 1 := ⟨a - 1, by omega⟩
      obtain ⟨b', rfl⟩ : ∃ b', b = b' + 1 := ⟨b - 1, by omega⟩
      have hx0 : q x = true := by
        have hh : q x = !(decide (a' + 1 ≤ 0 ∧ 0 < b' + 1)) := hwin 0 (by simp)
        rw [hh]
        have hd : decide (a' + 1 ≤ 0 ∧ 0 < b' + 1) = false := decide_eq_false (by omega)
        rw [hd]
        rfl
      have hwin' : ∀ i (hi : i < xs.length),
          q (xs.get ⟨i, hi⟩) = !(decide (a' ≤ i ∧ i < b')) := by
        intro i hi
        have hh : q (xs.get ⟨i, hi⟩) = !(decide (a' + 1 ≤ i + 1 ∧ i + 1 < b' + 1)) :=
          hwin (i + 1) (by simp; omega)
        rw [hh]
        congr 1
        exact decide_eq_decide.mpr (by omega)
      have hrec := ih (k + 1) a' b' (by omega) (by simp at hb; omega) hwin'
      simp only [idxWhere, hx0, if_true, hrec]
      rw [List.range'_succ]
      simp only [List.cons_append, List.length_cons]
      have e1 : k + 1 + b' = k + (b' + 1) := by omega
      have e2 : xs.length - b' = xs.length + 1 - (b' + 1) := by omega
      rw [e1, e2]

/-- Direction of an order mode. -/
def isAscending : OrderByMode → Bool
  | .ascending | .ascendingNullsLast => true
  | .descending | .descendingNullsLast => false

/-- Null placement of an order mode (Ascending and Descending put nulls
first, the NullsLast variants last). -/
def nullsFirst : OrderByMode → Bool
  | .ascending | .descending => true
  | .ascendingNullsLast | .descendingNullsLast => false

/-- Rows of a segment obeying the ordered_by contract: `nc` nulls grouped at
the proper end around the monotone non-null values. -/
def mkRows (mode : OrderByMode) (nc : Nat) (vals : List Int) : List (Option Int) :=
  if nullsFirst mode then List.replicate nc (none : Option Int) ++ vals.map some
  else vals.map some ++ List.replicate nc (none : Option Int)

/-- Offset of the non-null region inside the physical rows. -/
def scanOffset (mode : OrderByMode) (nc : Nat) : Nat :=
  if nullsFirst mode then nc else 0

/-- Modelled from the spec (the sorted-scan accelerator is not under src/):
binary-search the contiguous matching index window inside the non-null
region and emit it directly — `[lower_bound, upper_bound)` for Equals,
prefixes/suffixes for the inequalities, direction reversed for descending
orders, nulls excluded from the searched region (spec 4.7).  NotEquals
(exercised by the sorted-scan tests though absent from the spec's table)
emits the complement of the Equals window as two ranges. -/
def sorted_scan (mode : OrderByMode) (nc : Nat) (vals : List Int)
    (c : PredicateCondition) (v : Int) : List Nat :=
  if isAscending mode then
    match c with
    | .equals => List.range' (scanOffset mode nc + lower_bound vals v)
        (upper_bound vals v - lower_bound vals v)
    | .notEquals => List.range' (scanOffset mode nc) (lower_bound vals v)
        ++ List.range' (scanOffset mode nc + upper_bound vals v)
          (vals.length - upper_bound vals v)
    | .lessThan => List.range' (scanOffset mode nc) (lower_bound vals v)
    | .lessThanEquals => List.range' (scanOffset mode nc) (upper_bound vals v)
    | .greaterThan => List.range' (scanOffset mode nc + upper_bound vals v)
        (vals.length - upper_bound vals v)
    | .greaterThanEquals => List.range' (scanOffset mode nc + lower_bound vals v)
        (vals.length - lower_bound vals v)
    | _ => []
  else
    match c with
    | .equals => List.range'
        (scanOffset mode nc + vals.countP (fun x => decide (v < x)))
        (vals.countP (fun x => decide (v ≤ x)) - vals.countP (fun x => decide (v < x)))
    | .notEquals => List.range' (scanOffset mode nc)
          (vals.countP (fun x => decide (v < x)))
        ++ List.range' (scanOffset mode nc + vals.countP (fun x => decide (v ≤ x)))
          (vals.length - vals.countP (fun x => decide (v ≤ x)))
    | .lessThan => List.range'
        (scanOffset mode nc + vals.countP (fun x => decide (v ≤ x)))
        (vals.length - vals.countP (fun x => decide (v ≤ x)))
    | .lessThanEquals => List.range'
        (scanOffset mode nc + vals.countP (fun x => decide (v < x)))
        (vals.length - vals.countP (fun x => decide (v < x)))
    | .greaterThan => List.range' (scanOffset mode nc)
        (vals.countP (fun x => decide (v < x)))
    | .greaterThanEquals => List.range' (scanOffset mode nc)
        (vals.countP (fun x => decide (v ≤ x)))
    | _ => []

theorem value_scan_mkRows (mode : OrderByMode) (nc : Nat) (vals : List Int)
    (c : PredicateCondition) (v : Int) :
    value_scan (mkRows mode nc vals) c v
      = idxWhere (fun x => cmpMatches c x v) vals (scanOffset mode nc) := by
  unfold mkRows value_scan scanOffset
  have hrep : ∀ j : Nat, idxWhere (fun cell => match cell with
      | none => false
      | some x => cmpMatches c x v) (List.replicate nc (none : Option Int)) j = [] := by
    intro j
    refine idxWhere_false _ j ?_
    intro a ha
    have ha' := List.eq_of_mem_replicate ha
    subst ha'
    rfl
  by_cases hnf : nullsFirst mode = true
  · rw [if_pos hnf, if_pos hnf, idxWhere_append, hrep, idxWhere_map]
    simp only [List.nil_append, List.length_replicate, Nat.zero_add]
  · rw [if_neg hnf, if_neg hnf, idxWhere_append, hrep, idxWhere_map]
    simp only [List.append_nil]

/-- C8: for every segment obeying an ordered_by contract — any of the four
order modes, with any number of grouped nulls — a scan with one of the six
comparison conditions through the sorted accelerator returns exactly the
same positions as the generic unsorted scan of the same rows, and its
output never contains a null row. -/
theorem C8_sorted_scan_equiv (mode : OrderByMode) (nc : Nat) (vals : List Int)
    (hasc : isAscending mode = true → vals.Pairwise (· ≤ ·))
    (hdesc : isAscending mode = false → vals.Pairwise (fun a b => b ≤ a))
    (c : PredicateCondition) (hc : isComparison c = true) (v : Int) :
    sorted_scan mode nc vals c v
        = scan_chunk (Segment.valueSeg (mkRows mode nc vals)) c (some v) none ∧
      ∀ j ∈ sorted_scan mode nc vals c v,
        ∃ x, (mkRows mode nc vals).getD j none = some x := by
  have hmain : sorted_scan mode nc vals c v
      = scan_chunk (Segment.valueSeg (mkRows mode nc vals)) c (some v) none := by
    rw [scan_chunk_value_comparison _ _ _ _ hc, value_scan_mkRows]
    by_cases hdir : isAscending mode = true
    · have hs := hasc hdir
      unfold sorted_scan
      rw [if_pos hdir]
      cases c with
      | equals =>
        have hwin : ∀ i (hi : i < vals.length),
            (fun x => cmpMatches PredicateCondition.equals x v) (vals.get ⟨i, hi⟩)
              = decide (lower_bound vals v ≤ i ∧ i < upper_bound vals v) := by
          intro i hi
          have h1 := sorted_eq_window hs v i hi
          show (vals.get ⟨i, hi⟩ == v)
            = decide (lower_bound vals v ≤ i ∧ i < upper_bound vals v)
          rw [beq_int_decide]
          exact decide_eq_decide.mpr (by omega)
        rw [idxWhere_window _ vals (scanOffset mode nc) (lower_bound vals v)
          (upper_bound vals v) (lower_le_upper vals v) (upper_bound_le_length vals v) hwin]
      | notEquals =>
        have hwin : ∀ i (hi : i < vals.length),
            (fun x => cmpMatches PredicateCondition.notEquals x v) (vals.get ⟨i, hi⟩)
              = !(decide (lower_bound vals v ≤ i ∧ i < upper_bound vals v)) := by
          intro i hi
          have h1 := sorted_eq_window hs v i hi
          show (!(vals.get ⟨i, hi⟩ == v))
            = !(decide (lower_bound vals v ≤ i ∧ i < upper_bound vals v))
          rw [beq_int_decide]
          congr 1
          exact decide_eq_decide.mpr (by omega)
        rw [idxWhere_cowindow _ vals (scanOffset mode nc) (lower_bound vals v)
          (upper_bound vals v) (lower_le_upper vals v) (upper_bound_le_length vals v) hwin]
      | lessThan =>
        have hwin : ∀ i (hi : i < vals.length),
            (fun x => cmpMatches PredicateCondition.lessThan x v) (vals.get ⟨i, hi⟩)
              = decide (0 ≤ i ∧ i < lower_bound vals v) := by
          intro i hi
          have h1 := decide_eq_decide.mp (sorted_lt_char hs v i hi)
          show decide (vals.get ⟨i, hi⟩ < v) = decide (0 ≤ i ∧ i < lower_bound vals v)
          exact decide_eq_decide.mpr (by omega)
        rw [idxWhere_window _ vals (scanOffset mode nc) 0 (lower_bound vals v)
          (by omega) (lower_bound_le_length vals v) hwin]
        simp
      | lessThanEquals =>
        have hwin : ∀ i (hi : i < vals.length),
            (fun x => cmpMatches PredicateCondition.lessThanEquals x v) (vals.get ⟨i, hi⟩)
              = decide (0 ≤ i ∧ i < upper_bound vals v) := by
          intro i hi
          have h1 := decide_eq_decide.mp (sorted_le_char hs v i hi)
          show decide (vals.get ⟨i, hi⟩ ≤ v) = decide (0 ≤ i ∧ i < upper_bound vals v)
          exact decide_eq_decide.mpr (by omega)
        rw [idxWhere_window _ vals (scanOffset mode nc) 0 (upper_bound vals v)
          (by omega) (upper_bound_le_length vals v) hwin]
        simp
      | greaterThan =>
        have hwin : ∀ i (hi : i < vals.length),
            (fun x => cmpMatches PredicateCondition.greaterThan x v) (vals.get ⟨i, hi⟩)
              = decide (upper_bound vals v ≤ i ∧ i < vals.length) := by
          intro i hi
          have h1 := decide_eq_decide.mp (sorted_le_char hs v i hi)
          show decide (v < vals.get ⟨i, hi⟩)
            = decide (upper_bound vals v ≤ i ∧ i < vals.length)
          exact decide_eq_decide.mpr (by omega)
        rw [idxWhere_window _ vals (scanOffset mode nc) (upper_bound vals v)
          vals.length (upper_bound_le_length vals v) (le_refl _) hwin]
      | greaterThanEquals =>
        have hwin : ∀ i (hi : i < vals.length),
            (fun x => cmpMatches PredicateCondition.greaterThanEquals x v)
                (vals.get ⟨i, hi⟩)
              = decide (lower_bound vals v ≤ i ∧ i < vals.length) := by
          intro i hi
          have h1 := decide_eq_decide.mp (sorted_lt_char hs v i hi)
          show decide (v ≤ vals.get ⟨i, hi⟩)
            = decide (lower_bound vals v ≤ i ∧ i < vals.length)
          exact decide_eq_decide.mpr (by omega)
        rw [idxWhere_window _ vals (scanOffset mode nc) (lower_bound vals v)
          vals.length (lower_bound_le_length vals v) (le_refl _) hwin]
      | between => simp [isComparison] at hc
      | isNull => simp [isComparison] at hc
      | isNotNull => simp [isComparison] at hc
      | likeCond => simp [isComparison] at hc
      | notLikeCond => simp [isComparison] at hc
      | inCond => simp [isComparison] at hc
      | notInCond => simp [isComparison] at hc
    · have hdir' : isAscending mode = false := by simpa using hdir
      have hs := hdesc hdir'
      have hcnt : vals.countP (fun x => decide (v < x))
          ≤ vals.countP (fun x => decide (v ≤ x)) :=
        List.countP_mono_left
          (fun x _ hx => decide_eq_true (le_of_lt (of_decide_eq_true hx)))
      unfold sorted_scan
      rw [if_neg (by simp [hdir'])]
      cases c with
      | equals =>
        have hwin : ∀ i (hi : i < vals.length),
            (fun x => cmpMatches PredicateCondition.equals x v) (vals.get ⟨i, hi⟩)
              = decide (vals.countP (fun x => decide (v < x)) ≤ i
                  ∧ i < vals.countP (fun x => decide (v ≤ x))) := by
          intro i hi
          have h1 := decide_eq_decide.mp (sorted_gt_char hs v i hi)
          have h2 := decide_eq_decide.mp (sorted_ge_char hs v i hi)
          show (vals.get ⟨i, hi⟩ == v) = decide _
          rw [beq_int_decide]
          exact decide_eq_decide.mpr (by omega)
        rw [idxWhere_window _ vals (scanOffset mode nc) _ _ hcnt
          (List.countP_le_length _) hwin]
      | notEquals =>
        have hwin : ∀ i (hi : i < vals.length),
            (fun x => cmpMatches PredicateCondition.notEquals x v) (vals.get ⟨i, hi⟩)
              = !(decide (vals.countP (fun x => decide (v < x)) ≤ i
                  ∧ i < vals.countP (fun x => decide (v ≤ x)))) := by
          intro i hi
          have h1 := decide_eq_decide.mp (sorted_gt_char hs v i hi)
          have h2 := decide_eq_decide.mp (sorted_ge_char hs v i hi)
          show (!(vals.get ⟨i, hi⟩ == v)) = !(decide _)
          rw [beq_int_decide]
          congr 1
          exact decide_eq_decide.mpr (by omega)
        rw [idxWhere_cowindow _ vals (scanOffset mode nc) _ _ hcnt
          (List.countP_le_length _) hwin]
      | lessThan =>
        have hwin : ∀ i (hi : i < vals.length),
            (fun x => cmpMatches PredicateCondition.lessThan x v) (vals.get ⟨i, hi⟩)
              = decide (vals.countP (fun x => decide (v ≤ x)) ≤ i ∧ i < vals.length) := by
          intro i hi
          have h2 := decide_eq_decide.mp (sorted_ge_char hs v i hi)
          show decide (vals.get ⟨i, hi⟩ < v) = decide _
          exact decide_eq_decide.mpr (by omega)
        rw [idxWhere_window _ vals (scanOffset mode nc) _ vals.length
          (List.countP_le_length _) (le_refl _) hwin]
      | lessThanEquals =>
        have hwin : ∀ i (hi : i < vals.length),
            (fun x => cmpMatches PredicateCondition.lessThanEquals x v) (vals.get ⟨i, hi⟩)
              = decide (vals.countP (fun x => decide (v < x)) ≤ i ∧ i < vals.length) := by
          intro i hi
          have h1 := decide_eq_decide.mp (sorted_gt_char hs v i hi)
          show decide (vals.get ⟨i, hi⟩ ≤ v) = decide _
          exact decide_eq_decide.mpr (by omega)
        rw [idxWhere_window _ vals (scanOffset mode nc) _ vals.length
          (List.countP_le_length _) (le_refl _) hwin]
      | greaterThan =>
        have hwin : ∀ i (hi : i < vals.length),
            (fun x => cmpMatches PredicateCondition.greaterThan x v) (vals.get ⟨i, hi⟩)
              = decide (0 ≤ i ∧ i < vals.countP (fun x => decide (v < x))) := by
          intro i hi
          have h1 := decide_eq_decide.mp (sorted_gt_char hs v i hi)
          show decide (v < vals.get ⟨i, hi⟩) = decide _
          exact decide_eq_decide.mpr (by omega)
        rw [idxWhere_window _ vals (scanOffset mode nc) 0 _ (by omega)
          (List.countP_le_length _) hwin]
        simp
      | greaterThanEquals =>
        have hwin : ∀ i (hi : i < vals.length),
            (fun x => cmpMatches PredicateCondition.greaterThanEquals x v)
                (vals.get ⟨i, hi⟩)
              = decide (0 ≤ i ∧ i < vals.countP (fun x => decide (v ≤ x))) := by
          intro i hi
          have h2 := decide_eq_decide.mp (sorted_ge_char hs v i hi)
          show decide (v ≤ vals.get ⟨i, hi⟩) = decide _
          exact decide_eq_decide.mpr (by omega)
        rw [idxWhere_window _ vals (scanOffset mode nc) 0 _ (by omega)
          (List.countP_le_length _) hwin]
        simp
      | between => simp [isComparison] at hc
      | isNull => simp [isComparison] at hc
      | isNotNull => simp [isComparison] at hc
      | likeCond => simp [isComparison] at hc
      | notLikeCond => simp [isComparison] at hc
      | inCond => simp [isComparison] at hc
      | notInCond => simp [isComparison] at hc
  refine ⟨hmain, ?_⟩
  intro j hj
  rw [hmain, scan_chunk_value_comparison _ _ _ _ hc] at hj
  exact value_scan_no_nulls _ _ _ j hj

/-- Witness for C8 on a nullable ascending-nulls-first segment over 0..9
with LessThan 5. -/
theorem C8_sorted_scan_equiv_witness :
    sorted_scan OrderByMode.ascending 3 [0, 1, 2, 3, 4, 5, 6, 7, 8, 9]
        PredicateCondition.lessThan 5
      = scan_chunk
          (Segment.valueSeg (mkRows OrderByMode.ascending 3 [0, 1, 2, 3, 4, 5, 6, 7, 8, 9]))
          PredicateCondition.lessThan (some 5) none :=
  (C8_sorted_scan_equiv OrderByMode.ascending 3 [0, 1, 2, 3, 4, 5, 6, 7, 8, 9]
    (fun _ => by decide) (fun h => absurd h (by decide))
    PredicateCondition.lessThan (by decide) 5).1

end Opossum
